import Mathlib

/-!
# Verification of the LLM evaluation dashboard (client-side logic)

A shallow embedding of the TypeScript client logic of the repository:
dataset parsing and normalization (`welcome-modal.tsx`), the mock
evaluation run loop and the memoized metric selectors (`App` in the
main client file), the token diff view (`diff-modal.tsx`), the CSV
export (`export-button.tsx`) and the live playground
(`live-playground.tsx`).

JavaScript strings are modelled as Lean `String`s, with the library
operations the code uses (`split` on a one-character separator, `trim`,
`replace`) implemented over `List Char`; JavaScript numbers are
modelled as `ℚ` (all numeric values in this code are produced by
`Math.floor`, integer literals, or divisions of such, so no
floating-point rounding is involved in the claims); `Math.random()`
draws are modelled as an oracle of rationals in `[0, 1)`.
JavaScript objects holding parsed dataset rows are modelled as
association lists of string key/value pairs (`Row`).
-/

/-- Whitespace test, modelling the ASCII part of JavaScript `\s` /
`String.prototype.trim` (the code never feeds Unicode whitespace to
`trim`; header and cell text in the claims is ASCII). -/
def isWsChar (c : Char) : Bool :=
  c = ' ' ∨ c = '\t' ∨ c = '\n' ∨ c = '\r' ∨ c = '\x0b' ∨ c = '\x0c'

/-- Models JavaScript `String.prototype.trim` on the character list. -/
def trimChars (l : List Char) : List Char :=
  ((l.dropWhile isWsChar).reverse.dropWhile isWsChar).reverse

/-- Models JavaScript `String.prototype.split` with a one-character
separator: `splitCh c l` cuts `l` at every occurrence of `c`.
`splitCh c [] = [[]]`, matching `"".split(c) = [""]`. -/
def splitCh (c : Char) : List Char → List (List Char)
  | [] => [[]]
  | a :: rest =>
    match splitCh c rest with
    | [] => [[]]
    | g :: gs => if a = c then [] :: g :: gs else (a :: g) :: gs

/-- Inverse of `splitCh`: join pieces with the separator `c` between
them (the JavaScript `Array.prototype.join` with a one-character
separator). -/
def joinSep (c : Char) : List (List Char) → List Char
  | [] => []
  | [g] => g
  | g :: gs => g ++ c :: joinSep c gs

/-- Models `.replace(/"/g, "")`: remove every double-quote character. -/
def stripQuotes (l : List Char) : List Char :=
  l.filter (fun ch => ch ≠ '"')

/-- Models `.replace(/"/g, s!"\x7b dq dq \x7d")`: double every
double-quote character (used by the CSV export). -/
def escQuotes (l : List Char) : List Char :=
  l.flatMap (fun ch => if ch = '"' then ['"', '"'] else [ch])

/-- String-level wrapper for `splitCh`. -/
def jsSplit (c : Char) (s : String) : List String :=
  (splitCh c s.data).map (fun cs => ⟨cs⟩)

/-- String-level wrapper for `trimChars`. -/
def jsTrim (s : String) : String := ⟨trimChars s.data⟩

/-- Models JavaScript `String.prototype.endsWith` (no position
argument). -/
def jsEndsWith (s suffix : String) : Bool :=
  suffix.data.isSuffixOf s.data

/-! ## JavaScript objects as association lists -/

/-- A parsed dataset row: a JavaScript object with string-valued
properties, as an association list in property-insertion order.
(JSONL rows may carry arbitrary JSON values; those are the
`JsObj` objects below, built from the same property operations,
which are generic in the value type.) -/
abbrev Row := List (String × String)

/-- Property read `row[k]` (JS object semantics: one value per key;
for robustness against duplicate keys the later entry wins, matching
the effect of repeated assignment). -/
def Row.get? {α : Type} : List (String × α) → String → Option α
  | [], _ => none
  | (k, v) :: r, key =>
    match Row.get? r key with
    | some w => some w
    | none => if k = key then some v else none

/-- Does the object have property `k`? -/
def Row.hasKey {α : Type} (r : List (String × α)) (k : String) : Bool :=
  r.any (fun p => p.1 = k)

/-- Replace the value at every entry whose key is `k` (insertion order
kept); identity on keys that are absent. -/
def Row.setVal {α : Type} : List (String × α) → String → α → List (String × α)
  | [], _, _ => []
  | (k', v') :: r, k, v =>
    (if k' = k then (k, v) else (k', v')) :: Row.setVal r k v

/-- Property write `row[k] = v`: update in place when present
(keeping insertion order), append otherwise. -/
def Row.set {α : Type} (r : List (String × α)) (k : String) (v : α) : List (String × α) :=
  if Row.hasKey r k then Row.setVal r k v else r ++ [(k, v)]

/-- JavaScript `a || b` on possibly-missing strings: a present
non-empty string is truthy, a missing value (`undefined`) or the empty
string is falsy. -/
def jsOr (a b : Option String) : Option String :=
  match a with
  | some s => if s = "" then b else some s
  | none => b

/-- Final `|| ""` defaulting of a possibly-missing string. -/
def jsGet (o : Option String) : String := o.getD ""

/-- JS truthiness of a possibly-missing string. -/
def jsTruthy (o : Option String) : Bool :=
  match o with
  | some s => s ≠ ""
  | none => false

/-! ## Dataset parsing (`DatasetUpload` in `welcome-modal.tsx`) -/

/-- The object built by `headers.forEach((header, index) => obj[header]
= values[index] || "")`. -/
def mkObj (headers values : List String) : Row :=
  headers.enum.foldl (fun obj p => Row.set obj p.2 (values.getD p.1 "")) []

/-- `parseCSV` from `welcome-modal.tsx`: split on newlines, drop blank
lines, read the first line as headers (trimmed, quotes stripped), and
turn every further line into an object keyed by the headers. -/
def parseCSV (text : String) : List Row :=
  let lines := (jsSplit '\n' text).filter (fun l => jsTrim l ≠ "")
  match lines with
  | [] => []
  | header :: rest =>
    let headers := (jsSplit ',' header).map (fun h => (⟨stripQuotes (trimChars h.data)⟩ : String))
    rest.map (fun line =>
      let values := (jsSplit ',' line).map (fun v => (⟨stripQuotes (trimChars v.data)⟩ : String))
      mkObj headers values)

/-- The character of one decimal digit. -/
def digitChar : ℕ → Char
  | 0 => '0'
  | 1 => '1'
  | 2 => '2'
  | 3 => '3'
  | 4 => '4'
  | 5 => '5'
  | 6 => '6'
  | 7 => '7'
  | 8 => '8'
  | 9 => '9'
  | _ + 10 => '0'

/-- Decimal digits of a natural number (`fuel` bounds the digit
count; `natReprCh` always supplies enough). -/
def natReprChAux : ℕ → ℕ → List Char
  | 0, _ => []
  | fuel + 1, n =>
    if n < 10 then [digitChar n]
    else natReprChAux fuel (n / 10) ++ [digitChar (n % 10)]

/-- Decimal digits of a natural number. -/
def natReprCh (n : ℕ) : List Char := natReprChAux (n + 1) n

/-! ## JSON values and `JSON.parse` (`parseJSONL` uses the browser
library parser; modelled here in full: strings with escapes, numbers,
booleans, null, arrays and nested objects) -/

/-- Value of a single-character JSON string escape. -/
def jsonStrEsc : Char → Option Char
  | '"' => some '"'
  | '\\' => some '\\'
  | '/' => some '/'
  | 'b' => some '\x08'
  | 'f' => some '\x0c'
  | 'n' => some '\n'
  | 'r' => some '\r'
  | 't' => some '\t'
  | _ => none

/-- JSON insignificant whitespace. -/
def skipJWs (l : List Char) : List Char :=
  l.dropWhile (fun c => c = ' ' ∨ c = '\t' ∨ c = '\n' ∨ c = '\r')

/-- Value of one hexadecimal digit. -/
def hexVal (c : Char) : Option ℕ :=
  if '0' ≤ c ∧ c ≤ '9' then some (c.toNat - 48)
  else if 'a' ≤ c ∧ c ≤ 'f' then some (c.toNat - 87)
  else if 'A' ≤ c ∧ c ≤ 'F' then some (c.toNat - 55)
  else none

/-- Parse the body of a JSON string (the opening quote already
consumed), returning the decoded string and the rest of the input:
single-character escapes, `\uXXXX` escapes (a high/low surrogate pair
decodes to one code point; a lone surrogate, which Lean `Char` cannot
hold, degrades through `Char.ofNat`'s fallback — it never affects
parse success), and a rejection of raw control characters, as in
`JSON.parse`. -/
def parseJStringAux : ℕ → List Char → List Char → Option (String × List Char)
  | 0, _, _ => none
  | _ + 1, _, [] => none
  | _ + 1, acc, '"' :: rest => some ((⟨acc.reverse⟩ : String), rest)
  | _ + 1, _, '\\' :: [] => none
  | fuel + 1, acc, '\\' :: 'u' :: h1 :: h2 :: h3 :: h4 :: rest2 =>
    (match hexVal h1, hexVal h2, hexVal h3, hexVal h4 with
     | some a, some b, some c, some d =>
       let n := ((a * 16 + b) * 16 + c) * 16 + d
       if 0xD800 ≤ n ∧ n < 0xDC00 then
         match rest2 with
         | '\\' :: 'u' :: g1 :: g2 :: g3 :: g4 :: rest3 =>
           (match hexVal g1, hexVal g2, hexVal g3, hexVal g4 with
            | some a2, some b2, some c2, some d2 =>
              let m := ((a2 * 16 + b2) * 16 + c2) * 16 + d2
              if 0xDC00 ≤ m ∧ m < 0xE000 then
                parseJStringAux fuel
                  (Char.ofNat (0x10000 + (n - 0xD800) * 0x400 + (m - 0xDC00)) :: acc) rest3
              else parseJStringAux fuel (Char.ofNat m :: Char.ofNat n :: acc) rest3
            | _, _, _, _ => none)
         | _ => parseJStringAux fuel (Char.ofNat n :: acc) rest2
       else parseJStringAux fuel (Char.ofNat n :: acc) rest2
     | _, _, _, _ => none)
  | fuel + 1, acc, '\\' :: e :: rest2 =>
    (match jsonStrEsc e with
     | some d => parseJStringAux fuel (d :: acc) rest2
     | none => none)
  | fuel + 1, acc, c :: rest =>
    if c.toNat < 32 then none else parseJStringAux fuel (c :: acc) rest

/-- A JavaScript value produced by `JSON.parse`.  Numbers are exact
rationals: every JSON decimal literal is one; the float-64 rounding a
browser applies (e.g. `1e-400` underflowing to `0`) is not modelled
and never affects parse success. -/
inductive JsVal where
  | str : String → JsVal
  | num : ℚ → JsVal
  | bool : Bool → JsVal
  | null : JsVal
  | arr : List JsVal → JsVal
  | obj : List (String × JsVal) → JsVal

/-- A JavaScript object with arbitrary JSON values: what one line of a
JSONL upload contributes once parsed and normalized. -/
abbrev JsObj := List (String × JsVal)

/-- JS truthiness of a value (`NaN` does not arise: JSON has no `NaN`
literal). -/
def JsVal.truthy : JsVal → Bool
  | JsVal.str s => s ≠ ""
  | JsVal.num q => q ≠ 0
  | JsVal.bool b => b
  | JsVal.null => false
  | JsVal.arr _ => true
  | JsVal.obj _ => true

/-- JS truthiness of a possibly-missing (`undefined`) value. -/
def jsTruthyJ (o : Option JsVal) : Bool :=
  match o with
  | some v => v.truthy
  | none => false

/-- JavaScript `a || b` on a possibly-missing value: the value itself
when truthy, otherwise `b`. -/
def jsValOr (a : Option JsVal) (b : JsVal) : JsVal :=
  match a with
  | some v => if v.truthy then v else b
  | none => b

/-- Property read `row.k` for an identifier key, on any value:
`undefined` on every non-object (the index properties of strings and
arrays live under numeric keys, never under the column names this
code reads). -/
def JsVal.getField : JsVal → String → Option JsVal
  | JsVal.obj fields, k => Row.get? fields k
  | _, _ => none

/-- The own enumerable properties `{...row}` spreads: an object's
fields; the indexed characters of a string; the indexed elements of an
array; nothing for numbers, booleans and null. -/
def JsVal.ownProps : JsVal → List (String × JsVal)
  | JsVal.obj fields => fields
  | JsVal.str s => s.data.enum.map
      (fun p => ((⟨natReprCh p.1⟩ : String), JsVal.str (⟨[p.2]⟩ : String)))
  | JsVal.arr xs => xs.enum.map (fun p => ((⟨natReprCh p.1⟩ : String), p.2))
  | _ => []

/-- Value of one decimal digit character. -/
def digVal (c : Char) : Option ℕ :=
  if '0' ≤ c ∧ c ≤ '9' then some (c.toNat - 48) else none

/-- Longest prefix of decimal digits. -/
def takeDigits : List Char → List ℕ × List Char
  | [] => ([], [])
  | c :: rest =>
    match digVal c with
    | some d =>
      let p := takeDigits rest
      (d :: p.1, p.2)
    | none => ([], c :: rest)

/-- The natural number a digit list denotes. -/
def digitsToNat (ds : List ℕ) : ℕ := ds.foldl (fun a d => a * 10 + d) 0

/-- Optional JSON fraction part after the integer part. -/
def parseFracPart (ipart : ℕ) : List Char → Option (ℚ × List Char)
  | '.' :: r =>
    let p := takeDigits r
    if p.1 = [] then none
    else some ((ipart : ℚ) + (digitsToNat p.1 : ℚ) / 10 ^ p.1.length, p.2)
  | l => some ((ipart : ℚ), l)

/-- JSON exponent digits with an optional sign. -/
def parseExpTail (m : ℚ) (l : List Char) : Option (ℚ × List Char) :=
  let sn : Bool × List Char :=
    match l with
    | '+' :: r => (false, r)
    | '-' :: r => (true, r)
    | _ => (false, l)
  let p := takeDigits sn.2
  if p.1 = [] then none
  else some ((if sn.1 then m / 10 ^ digitsToNat p.1 else m * 10 ^ digitsToNat p.1), p.2)

/-- Optional JSON exponent part. -/
def parseExpPart (m : ℚ) : List Char → Option (ℚ × List Char)
  | 'e' :: r => parseExpTail m r
  | 'E' :: r => parseExpTail m r
  | l => some (m, l)

/-- A JSON number literal: optional minus, an integer part with no
leading zero, an optional fraction and an optional exponent. -/
def parseJNumber (l : List Char) : Option (ℚ × List Char) :=
  let sn : Bool × List Char :=
    match l with
    | '-' :: r => (true, r)
    | _ => (false, l)
  match sn.2 with
  | [] => none
  | c :: r =>
    match digVal c with
    | none => none
    | some d0 =>
      if d0 == 0 && (match r with | c2 :: _ => (digVal c2).isSome | [] => false) then none
      else
        let ip : ℕ × List Char :=
          if d0 = 0 then (0, r)
          else
            let p := takeDigits r
            (digitsToNat (d0 :: p.1), p.2)
        match parseFracPart ip.1 ip.2 with
        | none => none
        | some (m, r2) =>
          match parseExpPart m r2 with
          | none => none
          | some (q, r3) => some ((if sn.1 then -q else q), r3)

/-- What `parseJ` is currently parsing: a value, the remaining members
of an object, or the remaining elements of an array (with what has
been read so far). -/
inductive JParseMode where
  | val : JParseMode
  | members : List (String × JsVal) → JParseMode
  | elems : List JsVal → JParseMode

/-- Modelled from the library: the JSON grammar of JavaScript
`JSON.parse` — objects (later duplicate keys overwrite, keeping first
position), arrays, strings, numbers, `true`/`false`/`null` — as one
fuelled recursive descent.  Every recursive call consumes input, so
the fuel `jsonParseLine` passes always suffices. -/
def parseJ : ℕ → JParseMode → List Char → Option (JsVal × List Char)
  | 0, _, _ => none
  | fuel + 1, JParseMode.val, l =>
    (match skipJWs l with
     | '\x7b' :: rest =>
       (match skipJWs rest with
        | '\x7d' :: rest2 => some (JsVal.obj [], rest2)
        | l2 => parseJ fuel (JParseMode.members []) l2)
     | '[' :: rest =>
       (match skipJWs rest with
        | ']' :: rest2 => some (JsVal.arr [], rest2)
        | l2 => parseJ fuel (JParseMode.elems []) l2)
     | '"' :: rest =>
       (match parseJStringAux (rest.length + 1) [] rest with
        | some (s, rest2) => some (JsVal.str s, rest2)
        | none => none)
     | 't' :: 'r' :: 'u' :: 'e' :: rest => some (JsVal.bool true, rest)
     | 'f' :: 'a' :: 'l' :: 's' :: 'e' :: rest => some (JsVal.bool false, rest)
     | 'n' :: 'u' :: 'l' :: 'l' :: rest => some (JsVal.null, rest)
     | l2 =>
       (match parseJNumber l2 with
        | some (q, rest) => some (JsVal.num q, rest)
        | none => none))
  | fuel + 1, JParseMode.members acc, l =>
    (match l with
     | '"' :: rest =>
       (match parseJStringAux (rest.length + 1) [] rest with
        | none => none
        | some (key, rest2) =>
          match skipJWs rest2 with
          | ':' :: rest3 =>
            (match parseJ fuel JParseMode.val rest3 with
             | none => none
             | some (v, rest4) =>
               let acc2 := Row.set acc key v
               match skipJWs rest4 with
               | ',' :: rest5 => parseJ fuel (JParseMode.members acc2) (skipJWs rest5)
               | '\x7d' :: rest5 => some (JsVal.obj acc2, rest5)
               | _ => none)
          | _ => none)
     | _ => none)
  | fuel + 1, JParseMode.elems acc, l =>
    (match parseJ fuel JParseMode.val l with
     | none => none
     | some (v, rest) =>
       match skipJWs rest with
       | ',' :: rest2 => parseJ fuel (JParseMode.elems (acc ++ [v])) rest2
       | ']' :: rest2 => some (JsVal.arr (acc ++ [v]), rest2)
       | _ => none)

/-- Modelled from the library: JavaScript `JSON.parse` on one line —
a single JSON value of any shape, with only whitespace after it. -/
def jsonParseLine (s : String) : Option JsVal :=
  match parseJ (s.data.length + 2) JParseMode.val s.data with
  | some (v, rest) => if skipJWs rest = [] then some v else none
  | none => none

/-- Map which fails when any element fails (the behaviour of
`lines.map(JSON.parse)` under exceptions). -/
def mapOption (f : α → Option β) : List α → Option (List β)
  | [] => some []
  | x :: xs =>
    match f x, mapOption f xs with
    | some y, some ys => some (y :: ys)
    | _, _ => none

/-- `parseJSONL` from `welcome-modal.tsx`: one `JSON.parse` per
non-blank line; a throwing line makes the whole parse fail. -/
def parseJSONL (text : String) : Option (List JsVal) :=
  mapOption jsonParseLine ((jsSplit '\n' text).filter (fun l => jsTrim l ≠ ""))

/-- A CSV row as the JS object it is: string-valued properties. -/
def rowToVal (r : Row) : JsVal :=
  JsVal.obj (r.map (fun kv => (kv.1, JsVal.str kv.2)))

/-- The column-name normalization applied to every parsed row before
it is handed to `onDatasetUpload`:
`(\x7b prompt: row.prompt || row.question || "", expected_output:
row.expected_output || row.expected || row.answer || "", ...row \x7d)`.
The spread comes last, so a `prompt` / `expected_output` property of
the row itself (even a falsy one) overwrites the normalized value. -/
def normalizeRowJ (row : JsVal) : JsObj :=
  let p := jsValOr (JsVal.getField row "prompt")
    (jsValOr (JsVal.getField row "question") (JsVal.str ""))
  let e := jsValOr (JsVal.getField row "expected_output")
    (jsValOr (JsVal.getField row "expected")
      (jsValOr (JsVal.getField row "answer") (JsVal.str "")))
  (JsVal.ownProps row).foldl (fun o kv => Row.set o kv.1 kv.2)
    (Row.set (Row.set [] "prompt" p) "expected_output" e)

/-- The validation and normalization `processFile` performs on parsed
data: empty-file check, required-column checks on the first row (JS
truthiness: a present empty string, `0`, `false` or `null` counts as
missing), then normalization.  `Except.error` is a surfaced error
message — in that case `onDatasetUpload` is not called and the
uploaded-file state is not set. -/
def processData (data : List JsVal) : Except String (List JsObj) :=
  match data with
  | [] => Except.error "File is empty or could not be parsed."
  | firstRow :: _ =>
    if !jsTruthyJ (JsVal.getField firstRow "prompt")
        && !jsTruthyJ (JsVal.getField firstRow "question") then
      Except.error "Dataset must contain a \"prompt\" or \"question\" column."
    else if !jsTruthyJ (JsVal.getField firstRow "expected_output")
        && !jsTruthyJ (JsVal.getField firstRow "expected")
        && !jsTruthyJ (JsVal.getField firstRow "answer") then
      Except.error "Dataset must contain an \"expected_output\", \"expected\", or \"answer\" column."
    else
      Except.ok (data.map normalizeRowJ)

/-- `processFile` from `welcome-modal.tsx`, as a function from the
file name and its text to either a surfaced error message or the
normalized dataset handed to `onDatasetUpload` (CSV rows enter the
shared validation as the string-valued objects they are). -/
def processFile (name text : String) : Except String (List JsObj) :=
  if jsEndsWith name ".csv" then processData ((parseCSV text).map rowToVal)
  else if jsEndsWith name ".jsonl" then
    match parseJSONL text with
    | some data => processData data
    | none => Except.error "Unexpected token in JSON"
  else Except.error "Unsupported file format. Please upload CSV or JSONL files."

/-! ## Evaluation results and the mock run loop (`App` in the main
client file, `src/unnamed/part_001`) -/

/-- The `EvaluationResult` record of the client `App`. -/
structure EvaluationResult where
  id : ℚ
  prompt : String
  modelResponse : String
  expectedOutput : String
  exactMatch : ℚ
  fuzzyMatch : ℚ
  toxicity : Bool
  model : String
  timestamp : String
deriving DecidableEq

/-- The ambient values consumed while building one mock result: the
`Date.now() + Math.random()` identifier, the `Math.random()` draws for
the two scores and the toxicity flag, and the ISO timestamp. -/
structure Draw where
  nowId : ℚ
  randExact : ℚ
  randFuzzy : ℚ
  randTox : ℚ
  isoTime : String

/-- `Math.floor` on the rationals modelling JS numbers. -/
def floorQ (q : ℚ) : ℚ := (Int.floor q : ℚ)

/-- The mock result built for one (dataset row, model) pair inside
`handleRunEvaluation` (the JS literal `0.9` is modelled as `9/10`). -/
def mkMockResult (d : Draw) (dataPoint : Row) (model : String) : EvaluationResult :=
  { id := d.nowId
    prompt := jsGet (Row.get? dataPoint "prompt")
    modelResponse :=
      "Mock response from " ++ model ++ " for: "
        ++ (jsGet (Row.get? dataPoint "prompt")).take 50 ++ "..."
    expectedOutput := jsGet (Row.get? dataPoint "expected_output")
    exactMatch := floorQ (d.randExact * 100)
    fuzzyMatch := floorQ (d.randFuzzy * 100)
    toxicity := decide (d.randTox > 9 / 10)
    model := model
    timestamp := d.isoTime }

/-- `handleRunEvaluation` of the client `App`: on a missing dataset or
empty model selection it returns early leaving the results unchanged;
otherwise it iterates dataset rows (outer loop) and selected models
(inner loop), appending one mock result per pair.  The oracle `ω`
supplies the ambient draws of evaluation step `i * models + j`. -/
def handleRunEvaluation (ω : ℕ → Draw) (dataset : List Row) (selectedModels : List String)
    (results : List EvaluationResult) : List EvaluationResult :=
  if dataset.length = 0 ∨ selectedModels.length = 0 then results
  else
    results ++ (List.range dataset.length).flatMap (fun i =>
      (List.range selectedModels.length).map (fun j =>
        mkMockResult (ω (i * selectedModels.length + j))
          (dataset.getD i []) (selectedModels.getD j "")))

/-- The generation parameters of the live playground sliders. -/
structure PlaygroundParams where
  temperature : ℚ
  maxTokens : ℚ
  topP : ℚ
  frequencyPenalty : ℚ

/-- The result record built by `handleRunEvaluation` in
`live-playground.tsx` and handed to `onAddResult` (the `parameters`
field is not part of the claims and is dropped; JS literals `0.8`,
`0.3`, `0.9` are modelled as exact rationals). -/
def playgroundResult (d : Draw) (prompt selectedModel : String)
    (ps : PlaygroundParams) : EvaluationResult :=
  let baseResponse := "This is a simulated response for: " ++ prompt.take 50 ++ "..."
  let tempInfluence :=
    if ps.temperature > 4 / 5 then " (creative)"
    else if ps.temperature < 3 / 10 then " (focused)" else ""
  { id := d.nowId
    prompt := prompt
    modelResponse := baseResponse ++ tempInfluence
    expectedOutput := "Expected output for comparison"
    exactMatch := floorQ (d.randExact * 100)
    fuzzyMatch := floorQ (d.randFuzzy * 100)
    toxicity := decide (d.randTox > 9 / 10)
    model := selectedModel
    timestamp := d.isoTime }

/-! ## Memoized metric selectors of the client `App` -/

/-- Models the test of
`/ignore\s+previous|disregard\s+instructions|act\s+as|pretend\s+to\s+be/i`:
a sequence of literal words separated by runs of whitespace, matched
at the head of the input (ASCII whitespace and case folding). -/
def matchWords : List (List Char) → List Char → Bool
  | [], _ => true
  | [w], l => w.isPrefixOf l
  | w :: ws, l =>
    w.isPrefixOf l &&
      (let rest := l.drop w.length
       (match rest with
        | c :: _ => isWsChar c
        | [] => false) &&
       matchWords ws (rest.dropWhile isWsChar))

/-- Search `matchWords` at every position of the input. -/
def searchWords (ws : List (List Char)) : List Char → Bool
  | [] => matchWords ws []
  | c :: rest => matchWords ws (c :: rest) || searchWords ws rest

/-- The prompt-injection regular-expression test of `securityMetrics`
(four alternatives, case-insensitive). -/
def injectionRegexTest (prompt : String) : Bool :=
  let t := prompt.data.map Char.toLower
  searchWords ["ignore".data, "previous".data] t
    || searchWords ["disregard".data, "instructions".data] t
    || searchWords ["act".data, "as".data] t
    || searchWords ["pretend".data, "to".data, "be".data] t

/-- The record computed by the `securityMetrics` memo of the `App`. -/
structure SecurityMetrics where
  totalPrompts : ℕ
  promptInjectionAttempts : ℕ
  toxicityAlerts : ℕ
  flaggedContent : ℕ
  securityScore : ℚ

/-- `securityMetrics` from the client `App`: counts of suspected
injection prompts, toxicity flags and low-exact-match results, and the
clamped security score. -/
def securityMetrics (results : List EvaluationResult) : SecurityMetrics :=
  let totalPrompts := results.length
  let promptInjectionAttempts := (results.filter (fun r => injectionRegexTest r.prompt)).length
  let toxicityAlerts := (results.filter (fun r => r.toxicity)).length
  let flaggedContent := (results.filter (fun r => decide (r.exactMatch < 30))).length
  let securityScore : ℚ :=
    if totalPrompts > 0 then
      max 0 (100 - ((promptInjectionAttempts + toxicityAlerts + flaggedContent : ℚ)
        / totalPrompts) * 100)
    else 100
  ⟨totalPrompts, promptInjectionAttempts, toxicityAlerts, flaggedContent, securityScore⟩

/-- One bucket of the score-distribution chart data. -/
structure RangeBucket where
  range : String
  exactMatch : ℕ
  fuzzyMatch : ℕ
deriving DecidableEq

/-- The four buckets the `scoreDistribution` memo starts from. -/
def initialRanges : List RangeBucket :=
  [⟨"0-25%", 0, 0⟩, ⟨"26-50%", 0, 0⟩, ⟨"51-75%", 0, 0⟩, ⟨"76-100%", 0, 0⟩]

/-- In-place update of the bucket at index `i` (the effect of
`ranges[index].field++`). -/
def bumpAt (f : RangeBucket → RangeBucket) : List RangeBucket → ℕ → List RangeBucket
  | [], _ => []
  | b :: bs, 0 => f b :: bs
  | b :: bs, n + 1 => b :: bumpAt f bs n

/-- Processing of one result inside the `scoreDistribution` memo:
`Math.floor(score / 25)` picks the bucket, guarded by
`index >= 0 && index < 4`. -/
def applyResult (acc : List RangeBucket) (r : EvaluationResult) : List RangeBucket :=
  let exactIndex : ℤ := Int.floor (r.exactMatch / 25)
  let fuzzyIndex : ℤ := Int.floor (r.fuzzyMatch / 25)
  let acc1 :=
    if 0 ≤ exactIndex ∧ exactIndex < 4 then
      bumpAt (fun b => { b with exactMatch := b.exactMatch + 1 }) acc exactIndex.toNat
    else acc
  if 0 ≤ fuzzyIndex ∧ fuzzyIndex < 4 then
    bumpAt (fun b => { b with fuzzyMatch := b.fuzzyMatch + 1 }) acc1 fuzzyIndex.toNat
  else acc1

/-- The `scoreDistribution` memo of the client `App`. -/
def scoreDistribution (results : List EvaluationResult) : List RangeBucket :=
  results.foldl applyResult initialRanges

/-- Sum of the exact-match bucket counts. -/
def sumExactBuckets (l : List RangeBucket) : ℕ :=
  (l.map (fun b => b.exactMatch)).sum

/-- Sum of the fuzzy-match bucket counts. -/
def sumFuzzyBuckets (l : List RangeBucket) : ℕ :=
  (l.map (fun b => b.fuzzyMatch)).sum

/-! ## Token diff (`diff-modal.tsx`) -/

/-- One entry of the token diff (`expected` is only set on a
mismatch). -/
structure DiffEntry where
  token : String
  type : String
  expected : Option String
deriving DecidableEq

/-- `generateDiff` from `diff-modal.tsx`: positional comparison of the
space-split tokens of the two strings (`tokens[i] || ""` defaults a
missing position to the empty string). -/
def generateDiff (modelResponse expectedOutput : String) : List DiffEntry :=
  let modelTokens := jsSplit ' ' modelResponse
  let expectedTokens := jsSplit ' ' expectedOutput
  let maxLength := max modelTokens.length expectedTokens.length
  (List.range maxLength).map (fun i =>
    let modelToken := modelTokens.getD i ""
    let expectedToken := expectedTokens.getD i ""
    if modelToken = expectedToken then ⟨modelToken, "match", none⟩
    else if modelToken ≠ "" ∧ expectedToken ≠ "" then
      ⟨modelToken, "mismatch", some expectedToken⟩
    else if modelToken ≠ "" then ⟨modelToken, "extra", none⟩
    else ⟨expectedToken, "missing", none⟩)

/-- The render result of the `DiffModal` component: `none` models the
`if (score >= 70) return null` early return, `some` the rendered
dialog whose observable content is the generated diff. -/
def DiffModal (modelResponse expectedOutput : String) (score : ℚ) : Option (List DiffEntry) :=
  if score ≥ 70 then none
  else some (generateDiff modelResponse expectedOutput)

/-- The diff cell `ResultsTable` renders for one row: it passes
`Math.max(result.exactMatch, result.fuzzyMatch)` as the score. -/
def resultDiffCell (r : EvaluationResult) : Option (List DiffEntry) :=
  DiffModal r.modelResponse r.expectedOutput (max r.exactMatch r.fuzzyMatch)

/-! ## CSV export (`export-button.tsx`) -/

/-- Decimal representation of an integer. -/
def intReprCh (i : ℤ) : List Char :=
  if i < 0 then '-' :: natReprCh i.natAbs else natReprCh i.toNat

/-- Modelled from the library: JS number-to-string conversion for the
values this app writes to CSV (integers in the reachable states; a
non-integral rational is rendered as `num/den`, which like every
output of this function contains no comma, quote or newline). -/
def numRepr (q : ℚ) : String :=
  if q.den = 1 then (⟨intReprCh q.num⟩ : String)
  else (⟨intReprCh q.num ++ '/' :: natReprCh q.den⟩ : String)

/-- A text field as exported: wrapped in double quotes, embedded
quotes doubled. -/
def escField (s : String) : String :=
  (⟨'"' :: (escQuotes s.data ++ ['"'])⟩ : String)

/-- The header cells of the export. -/
def csvHeaders : List String :=
  ["Prompt", "Model Response", "Expected Output", "Exact Match (%)",
   "Fuzzy Match (%)", "Toxicity", "Model"]

/-- One data line of the export: quoted text fields, plain scores,
`Yes`/`No` toxicity, `row.model || "Unknown"`. -/
def csvRowLine (row : EvaluationResult) : String :=
  (⟨joinSep ','
    [(escField row.prompt).data,
     (escField row.modelResponse).data,
     (escField row.expectedOutput).data,
     (numRepr row.exactMatch).data,
     (numRepr row.fuzzyMatch).data,
     (if row.toxicity then "Yes" else "No" : String).data,
     (if row.model = "" then "Unknown" else row.model).data]⟩ : String)

/-- The CSV text `exportToCSV` builds: the joined header line followed
by one line per result, joined with newlines. -/
def csvContent (data : List EvaluationResult) : String :=
  (⟨joinSep '\n'
    ((joinSep ',' (csvHeaders.map String.data)) :: data.map (fun r => (csvRowLine r).data))⟩ : String)

/-- `exportToCSV` from `export-button.tsx`: `none` models the
`if (!data.length) return` early exit (no file produced). -/
def exportToCSV (data : List EvaluationResult) : Option String :=
  if data.isEmpty then none else some (csvContent data)

/-- A text field containing no comma, double quote or newline — the
characters the naive uploader-side `parseCSV` cannot see past. -/
@[reducible]
def cleanText (s : String) : Prop :=
  ∀ c ∈ s.data, c ≠ ',' ∧ c ≠ '"' ∧ c ≠ '\n'

/-! ## Concrete instances used in witnesses and counterexamples -/

/-- A sample ambient draw with `Math.random()` values in `[0, 1)`. -/
def sampleDraw : Draw := ⟨1, 1/2, 1/3, 1/4, "2025-01-01T00:00:00.000Z"⟩

/-- A constant draw oracle. -/
def sampleOracle : ℕ → Draw := fun _ => sampleDraw

/-- A sample normalized dataset row. -/
def sampleRow : Row := [("prompt", "p"), ("expected_output", "e")]

/-- Sample playground slider values. -/
def sampleParams : PlaygroundParams := ⟨7/10, 1000, 9/10, 0⟩

/-- A result whose better score is at least 70 (diff control hidden). -/
def rHigh : EvaluationResult :=
  ⟨1, "What is the capital of France?", "The capital of France is Paris.",
   "Paris", 85, 92, false, "gpt-4", "t"⟩

/-- A result with an exact-match score of exactly 100. -/
def rScore100 : EvaluationResult := ⟨2, "p", "m", "e", 100, 92, false, "gpt-4", "t"⟩

/-- A result whose prompt contains a comma and whose response contains
double quotes. -/
def rComma : EvaluationResult := ⟨3, "a,b", "say \"hi\"", "x", 85, 92, false, "gpt-4", "t"⟩

/-- A result whose text fields contain no comma, quote or newline. -/
def rClean : EvaluationResult := ⟨4, "What is 2+2?", "4", "4", 45, 68, false, "gpt-4", "t"⟩

namespace RowLemmas

theorem get?_nil {α : Type} (key : String) :
    Row.get? ([] : List (String × α)) key = none := rfl

theorem get?_cons {α : Type} (k : String) (v : α) (r : List (String × α)) (key : String) :
    Row.get? ((k, v) :: r) key =
      match Row.get? r key with
      | some w => some w
      | none => if k = key then some v else none := rfl

theorem get?_cons_of_some {α : Type} (k : String) (v : α) (r : List (String × α))
    (key : String) (w : α)
    (h : Row.get? r key = some w) : Row.get? ((k, v) :: r) key = some w := by
  rw [get?_cons, h]

theorem get?_cons_of_none {α : Type} (k : String) (v : α) (r : List (String × α))
    (key : String)
    (h : Row.get? r key = none) :
    Row.get? ((k, v) :: r) key = if k = key then some v else none := by
  rw [get?_cons, h]

theorem setVal_nil {α : Type} (k : String) (v : α) :
    Row.setVal ([] : List (String × α)) k v = [] := rfl

theorem setVal_cons_pos {α : Type} (k2 : String) (v2 : α) (k : String) (v : α)
    (r : List (String × α)) (h : k2 = k) :
    Row.setVal ((k2, v2) :: r) k v = (k, v) :: Row.setVal r k v := by
  have h1 : Row.setVal ((k2, v2) :: r) k v
      = (if k2 = k then (k, v) else (k2, v2)) :: Row.setVal r k v := rfl
  rw [h1, if_pos h]

theorem setVal_cons_neg {α : Type} (k2 : String) (v2 : α) (k : String) (v : α)
    (r : List (String × α)) (h : ¬ k2 = k) :
    Row.setVal ((k2, v2) :: r) k v = (k2, v2) :: Row.setVal r k v := by
  have h1 : Row.setVal ((k2, v2) :: r) k v
      = (if k2 = k then (k, v) else (k2, v2)) :: Row.setVal r k v := rfl
  rw [h1, if_neg h]

theorem get?_append {α : Type} (r s : List (String × α)) (k : String) :
    Row.get? (r ++ s) k =
      match Row.get? s k with
      | some w => some w
      | none => Row.get? r k := by
  induction r with
  | nil =>
    rw [List.nil_append, get?_nil]
    cases h : Row.get? s k <;> rfl
  | cons p r ih =>
    obtain ⟨k', v⟩ := p
    rw [List.cons_append, get?_cons, ih, get?_cons]
    cases h : Row.get? s k <;> cases h' : Row.get? r k <;> rfl

theorem hasKey_false_get? {α : Type} (r : List (String × α)) (k : String)
    (h : Row.hasKey r k = false) :
    Row.get? r k = none := by
  induction r with
  | nil => rfl
  | cons p r ih =>
    obtain ⟨k', v⟩ := p
    simp only [Row.hasKey, List.any_cons, Bool.or_eq_false_iff, decide_eq_false_iff_not] at h
    have hr := ih (by simpa [Row.hasKey] using h.2)
    rw [get?_cons_of_none _ _ _ _ hr, if_neg h.1]

theorem setVal_of_not_hasKey {α : Type} (r : List (String × α)) (k : String) (v : α)
    (h : Row.hasKey r k = false) :
    Row.setVal r k v = r := by
  induction r with
  | nil => rfl
  | cons p r ih =>
    obtain ⟨k2, v2⟩ := p
    simp only [Row.hasKey, List.any_cons, Bool.or_eq_false_iff, decide_eq_false_iff_not] at h
    rw [setVal_cons_neg _ _ _ _ _ h.1, ih (by simpa [Row.hasKey] using h.2)]

theorem get?_setVal_self {α : Type} (r : List (String × α)) (k : String) (v : α)
    (h : Row.hasKey r k = true) :
    Row.get? (Row.setVal r k v) k = some v := by
  induction r with
  | nil => simp [Row.hasKey] at h
  | cons p r ih =>
    obtain ⟨k', v'⟩ := p
    simp only [Row.hasKey, List.any_cons, Bool.or_eq_true, decide_eq_true_eq] at h
    by_cases hk : Row.hasKey r k
    · have hr := ih (by simpa [Row.hasKey] using hk)
      by_cases h2 : k' = k
      · rw [setVal_cons_pos _ _ _ _ _ h2, get?_cons_of_some _ _ _ _ _ hr]
      · rw [setVal_cons_neg _ _ _ _ _ h2, get?_cons_of_some _ _ _ _ _ hr]
    · have hkf : Row.hasKey r k = false := by simpa using hk
      have hnone : Row.get? (Row.setVal r k v) k = none := by
        rw [setVal_of_not_hasKey r k v hkf]
        exact hasKey_false_get? r k hkf
      have hkk : k' = k := by
        rcases h with h | h
        · exact h
        · exact absurd (by simpa [Row.hasKey] using h) hk
      rw [setVal_cons_pos _ _ _ _ _ hkk, get?_cons_of_none _ _ _ _ hnone, if_pos rfl]

theorem get?_setVal_ne {α : Type} (r : List (String × α)) (k : String) (v : α)
    (k' : String) (hne : k ≠ k') :
    Row.get? (Row.setVal r k v) k' = Row.get? r k' := by
  induction r with
  | nil => rfl
  | cons p r ih =>
    obtain ⟨k2, v2⟩ := p
    by_cases h2 : k2 = k
    · rw [setVal_cons_pos _ _ _ _ _ h2, get?_cons, ih, get?_cons, if_neg hne,
        if_neg (h2 ▸ hne : ¬ k2 = k')]
    · rw [setVal_cons_neg _ _ _ _ _ h2, get?_cons, ih, get?_cons]

theorem get?_set_self {α : Type} (r : List (String × α)) (k : String) (v : α) :
    Row.get? (Row.set r k v) k = some v := by
  unfold Row.set
  split
  · exact get?_setVal_self r k v (by assumption)
  · rw [get?_append]
    have hsingle : Row.get? [(k, v)] k = some v := by
      rw [get?_cons_of_none _ _ _ _ (get?_nil k), if_pos rfl]
    rw [hsingle]

theorem get?_set_ne {α : Type} (r : List (String × α)) (k : String) (v : α)
    (k' : String) (hne : k ≠ k') :
    Row.get? (Row.set r k v) k' = Row.get? r k' := by
  unfold Row.set
  split
  · exact get?_setVal_ne r k v k' hne
  · rw [get?_append]
    have : Row.get? [(k, v)] k' = none := by
      rw [get?_cons_of_none _ _ _ _ (get?_nil k'), if_neg hne]
    rw [this]

theorem get?_foldl_set {α : Type} (row base : List (String × α)) (k : String) :
    Row.get? (row.foldl (fun o kv => Row.set o kv.1 kv.2) base) k =
      match Row.get? row k with
      | some w => some w
      | none => Row.get? base k := by
  induction row generalizing base with
  | nil => rw [List.foldl_nil, get?_nil]
  | cons p row ih =>
    obtain ⟨k1, v1⟩ := p
    rw [List.foldl_cons, ih, get?_cons]
    cases h : Row.get? row k with
    | some w => rfl
    | none =>
      by_cases hk : k1 = k
      · subst hk
        rw [get?_set_self, if_pos rfl]
      · rw [get?_set_ne _ _ _ _ hk, if_neg hk]

end RowLemmas

namespace AuxLemmas

theorem splitCh_cons (c a : Char) (rest : List Char) :
    splitCh c (a :: rest) =
      match splitCh c rest with
      | [] => [[]]
      | g :: gs => if a = c then [] :: g :: gs else (a :: g) :: gs := rfl

theorem splitCh_ne_nil (c : Char) (l : List Char) : splitCh c l ≠ [] := by
  cases l with
  | nil => simp [splitCh]
  | cons a rest =>
    rw [splitCh_cons]
    cases h : splitCh c rest with
    | nil => simp
    | cons g gs =>
      by_cases hac : a = c <;> simp [hac]

theorem splitCh_of_not_mem (c : Char) (l : List Char) (h : c ∉ l) :
    splitCh c l = [l] := by
  induction l with
  | nil => rfl
  | cons a rest ih =>
    simp only [List.mem_cons, not_or] at h
    rw [splitCh_cons, ih h.2]
    simp [Ne.symm h.1]

theorem splitCh_append_cons (c : Char) (a w : List Char) (ha : c ∉ a) :
    splitCh c (a ++ c :: w) = a :: splitCh c w := by
  induction a with
  | nil =>
    simp only [List.nil_append]
    rw [splitCh_cons]
    cases h : splitCh c w with
    | nil => exact absurd h (splitCh_ne_nil c w)
    | cons g gs => simp
  | cons x a ih =>
    simp only [List.mem_cons, not_or] at ha
    simp only [List.cons_append]
    rw [splitCh_cons, ih ha.2]
    simp [Ne.symm ha.1]

theorem splitCh_joinSep (c : Char) (ls : List (List Char))
    (h : ∀ l ∈ ls, c ∉ l) (hne : ls ≠ []) :
    splitCh c (joinSep c ls) = ls := by
  induction ls with
  | nil => exact absurd rfl hne
  | cons g gs ih =>
    cases gs with
    | nil =>
      exact splitCh_of_not_mem c g (h g (by simp))
    | cons g2 gs2 =>
      have hjoin : joinSep c (g :: g2 :: gs2) = g ++ c :: joinSep c (g2 :: gs2) := rfl
      rw [hjoin, splitCh_append_cons c g _ (h g (by simp)),
        ih (fun l hl => h l (List.mem_cons_of_mem g hl)) (by simp)]

theorem splitCh_joinSep_append (c : Char) (ls : List (List Char)) (t : List Char)
    (h : ∀ l ∈ ls, c ∉ l) :
    splitCh c (joinSep c (ls ++ [t])) = ls ++ splitCh c t := by
  induction ls with
  | nil => rfl
  | cons g gs ih =>
    have hjoin : joinSep c ((g :: gs) ++ [t]) = g ++ c :: joinSep c (gs ++ [t]) := by
      cases gs <;> rfl
    rw [hjoin, splitCh_append_cons c g _ (h g (by simp)),
      ih (fun l hl => h l (List.mem_cons_of_mem g hl))]
    rfl

theorem mem_joinSep (c : Char) (ls : List (List Char)) (x : Char)
    (hx : x ∈ joinSep c ls) : x = c ∨ ∃ l ∈ ls, x ∈ l := by
  induction ls with
  | nil => simp [joinSep] at hx
  | cons g gs ih =>
    cases gs with
    | nil =>
      right
      exact ⟨g, by simp, hx⟩
    | cons g2 gs2 =>
      have hjoin : joinSep c (g :: g2 :: gs2) = g ++ c :: joinSep c (g2 :: gs2) := rfl
      rw [hjoin] at hx
      rcases List.mem_append.mp hx with hg | hrest
      · exact Or.inr ⟨g, by simp, hg⟩
      · rcases List.mem_cons.mp hrest with hc | htail
        · exact Or.inl hc
        · rcases ih htail with hc | ⟨l, hl, hxl⟩
          · exact Or.inl hc
          · exact Or.inr ⟨l, List.mem_cons_of_mem g hl, hxl⟩

theorem mem_dropWhile_of_mem (p : Char → Bool) (l : List Char) (a : Char)
    (ha : a ∈ l) (hpa : p a = false) : a ∈ l.dropWhile p := by
  induction l with
  | nil => simp at ha
  | cons x xs ih =>
    rw [List.dropWhile_cons]
    by_cases hx : p x = true
    · rw [if_pos hx]
      rcases List.mem_cons.mp ha with rfl | hxs
      · rw [hpa] at hx; exact absurd hx (by simp)
      · exact ih hxs
    · rw [if_neg hx]
      exact ha

theorem mem_trimChars_of_mem (l : List Char) (a : Char)
    (ha : a ∈ l) (hpa : isWsChar a = false) : a ∈ trimChars l := by
  unfold trimChars
  have h1 : a ∈ l.dropWhile isWsChar := mem_dropWhile_of_mem _ _ _ ha hpa
  have h2 : a ∈ (l.dropWhile isWsChar).reverse := List.mem_reverse.mpr h1
  have h3 : a ∈ (l.dropWhile isWsChar).reverse.dropWhile isWsChar :=
    mem_dropWhile_of_mem _ _ _ h2 hpa
  exact List.mem_reverse.mpr h3

theorem trimChars_ne_nil (l : List Char) (a : Char)
    (ha : a ∈ l) (hpa : isWsChar a = false) : trimChars l ≠ [] :=
  List.ne_nil_of_mem (mem_trimChars_of_mem l a ha hpa)

theorem mapOption_length {α β : Type} (f : α → Option β) (xs : List α) (ys : List β)
    (h : mapOption f xs = some ys) : ys.length = xs.length := by
  induction xs generalizing ys with
  | nil =>
    simp only [mapOption] at h
    cases h
    rfl
  | cons x xs ih =>
    simp only [mapOption] at h
    cases hx : f x with
    | none => rw [hx] at h; simp at h
    | some y =>
      rw [hx] at h
      cases hxs : mapOption f xs with
      | none => rw [hxs] at h; simp at h
      | some zs =>
        rw [hxs] at h
        cases h
        simp [ih zs hxs]

end AuxLemmas

/-! ## C6 and C7: the token diff -/

/-- C6: `generateDiff` is a linear pairwise positional comparison of
the space-split tokens: it returns exactly `max m n` entries, and the
entry at position `i` is classified `match` when the two (defaulted)
tokens agree, `mismatch` when both positions hold a non-empty token
and they differ, `extra` when only the model token is present
(non-empty), and `missing` when only the expected token is. -/
theorem generateDiff_positional (modelResponse expectedOutput : String) :
    (generateDiff modelResponse expectedOutput).length
        = max (jsSplit ' ' modelResponse).length (jsSplit ' ' expectedOutput).length ∧
    ∀ i, i < (generateDiff modelResponse expectedOutput).length →
      (generateDiff modelResponse expectedOutput)[i]? =
        some
          (let modelToken := (jsSplit ' ' modelResponse).getD i ""
           let expectedToken := (jsSplit ' ' expectedOutput).getD i ""
           if modelToken = expectedToken then ⟨modelToken, "match", none⟩
           else if modelToken ≠ "" ∧ expectedToken ≠ "" then
             ⟨modelToken, "mismatch", some expectedToken⟩
           else if modelToken ≠ "" then ⟨modelToken, "extra", none⟩
           else ⟨expectedToken, "missing", none⟩) := by
  constructor
  · simp [generateDiff]
  · intro i hi
    simp only [generateDiff, List.length_map, List.length_range] at hi
    simp [generateDiff, List.getElem?_map, List.getElem?_range hi]

/-- Witness for C6 at a mismatching position of a concrete input. -/
theorem generateDiff_positional_witness :
    (generateDiff "a b" "a x")[1]? = some ⟨"b", "mismatch", some "x"⟩ := by
  have h := (generateDiff_positional "a b" "a x").2 1 (by decide)
  rw [h]
  rfl

/-- C7: when the two strings split into identical token sequences —
in particular when the strings are equal — every produced diff entry
is classified `match`. -/
theorem generateDiff_identical_all_match (modelResponse expectedOutput : String)
    (h : jsSplit ' ' modelResponse = jsSplit ' ' expectedOutput) :
    ∀ e ∈ generateDiff modelResponse expectedOutput, e.type = "match" := by
  intro e he
  simp only [generateDiff, List.mem_map, List.mem_range] at he
  obtain ⟨i, hi, rfl⟩ := he
  simp [h]

/-- Witness for C7 on a concrete pair of equal strings. -/
theorem generateDiff_identical_all_match_witness :
    (generateDiff "a b" "a b").all (fun e => e.type == "match") = true := by
  apply List.all_eq_true.mpr
  intro e he
  have h := generateDiff_identical_all_match "a b" "a b" rfl e he
  simp [h]

/-! ## C9: the diff control threshold -/

/-- C9: the diff control renders only when the score handed to
`DiffModal` — the maximum of the row's exact- and fuzzy-match scores —
is strictly below 70; at 70 or more `DiffModal` returns null. -/
theorem diffModal_threshold :
    (∀ r : EvaluationResult,
        (resultDiffCell r = none ↔ 70 ≤ max r.exactMatch r.fuzzyMatch)) ∧
    (∀ (modelResponse expectedOutput : String) (score : ℚ),
        70 ≤ score → DiffModal modelResponse expectedOutput score = none) := by
  constructor
  · intro r
    unfold resultDiffCell DiffModal
    by_cases hc : (70 : ℚ) ≤ max r.exactMatch r.fuzzyMatch
    · rw [if_pos hc]
      simp [hc]
    · rw [if_neg hc]
      simp [hc]
  · intro modelResponse expectedOutput score hs
    unfold DiffModal
    rw [if_pos hs]

/-- Witness for C9: a concrete result with best score 92 renders no
diff control. -/
theorem diffModal_threshold_witness : resultDiffCell rHigh = none := by
  apply (diffModal_threshold.1 rHigh).mpr
  norm_num [rHigh]

/-! ## C10: the security score -/

/-- The security score as a closed formula. -/
theorem securityScore_eq (results : List EvaluationResult) :
    (securityMetrics results).securityScore =
      if results.length > 0 then
        max 0 (100 -
          ((((results.filter (fun r => injectionRegexTest r.prompt)).length : ℚ)
              + ((results.filter (fun r => r.toxicity)).length : ℚ)
              + ((results.filter (fun r => decide (r.exactMatch < 30))).length : ℚ))
            / (results.length : ℚ)) * 100)
      else 100 := rfl

/-- C10: the security score lies in `[0, 100]` for every result list —
the subtraction is clamped at 0 even when the three category counts
overlap and exceed the total — and equals 100 on the empty list. -/
theorem securityScore_bounds (results : List EvaluationResult) :
    0 ≤ (securityMetrics results).securityScore ∧
    (securityMetrics results).securityScore ≤ 100 ∧
    (results = [] → (securityMetrics results).securityScore = 100) := by
  rw [securityScore_eq]
  by_cases h : results.length > 0
  · rw [if_pos h]
    refine ⟨le_max_left 0 _, ?_, ?_⟩
    · apply max_le (by norm_num)
      apply sub_le_self
      have hnum : (0 : ℚ) ≤
          (((results.filter (fun r => injectionRegexTest r.prompt)).length : ℚ)
            + ((results.filter (fun r => r.toxicity)).length : ℚ)
            + ((results.filter (fun r => decide (r.exactMatch < 30))).length : ℚ)) := by
        positivity
      have hden : (0 : ℚ) ≤ (results.length : ℚ) := by positivity
      positivity
    · intro hnil
      subst hnil
      simp at h
  · rw [if_neg h]
    norm_num

/-- Witness for C10 on the empty result list. -/
theorem securityScore_bounds_witness :
    0 ≤ (securityMetrics []).securityScore ∧
    (securityMetrics []).securityScore = 100 :=
  ⟨(securityScore_bounds []).1, (securityScore_bounds []).2.2 rfl⟩

/-! ## C8: mock scores lie in 0–100 -/

/-- Bound on `Math.floor(x * 100)` for a random draw `x ∈ [0, 1)`. -/
theorem floorQ_mul100_bounds (x : ℚ) (h0 : 0 ≤ x) (h1 : x < 1) :
    0 ≤ floorQ (x * 100) ∧ floorQ (x * 100) ≤ 100 := by
  unfold floorQ
  constructor
  · have h : (0 : ℤ) ≤ ⌊x * 100⌋ := Int.le_floor.mpr (by push_cast; nlinarith)
    exact_mod_cast h
  · have h : ⌊x * 100⌋ < (101 : ℤ) := Int.floor_lt.mpr (by push_cast; nlinarith)
    have h2 : ⌊x * 100⌋ ≤ (100 : ℤ) := by omega
    exact_mod_cast h2

/-- C8: every result the run loop adds (and every result the live
playground builds) carries an exact-match and a fuzzy-match score in
`[0, 100]`, when every `Math.random()` draw lies in `[0, 1)`. -/
theorem result_scores_in_range (ω : ℕ → Draw)
    (hω : ∀ n, 0 ≤ (ω n).randExact ∧ (ω n).randExact < 1
        ∧ 0 ≤ (ω n).randFuzzy ∧ (ω n).randFuzzy < 1)
    (dataset : List Row) (selectedModels : List String)
    (results : List EvaluationResult) :
    (∀ r ∈ handleRunEvaluation ω dataset selectedModels results,
        r ∈ results ∨
          (0 ≤ r.exactMatch ∧ r.exactMatch ≤ 100
            ∧ 0 ≤ r.fuzzyMatch ∧ r.fuzzyMatch ≤ 100)) ∧
    (∀ (d : Draw) (prompt selectedModel : String) (ps : PlaygroundParams),
        0 ≤ d.randExact → d.randExact < 1 → 0 ≤ d.randFuzzy → d.randFuzzy < 1 →
          (0 ≤ (playgroundResult d prompt selectedModel ps).exactMatch
            ∧ (playgroundResult d prompt selectedModel ps).exactMatch ≤ 100
            ∧ 0 ≤ (playgroundResult d prompt selectedModel ps).fuzzyMatch
            ∧ (playgroundResult d prompt selectedModel ps).fuzzyMatch ≤ 100)) := by
  constructor
  · intro r hr
    unfold handleRunEvaluation at hr
    split at hr
    · exact Or.inl hr
    · rcases List.mem_append.mp hr with h | h
      · exact Or.inl h
      · right
        rcases List.mem_flatMap.mp h with ⟨i, hi, hmap⟩
        rcases List.mem_map.mp hmap with ⟨j, hj, rfl⟩
        have hb := hω (i * selectedModels.length + j)
        have he := floorQ_mul100_bounds _ hb.1 hb.2.1
        have hf := floorQ_mul100_bounds _ hb.2.2.1 hb.2.2.2
        exact ⟨he.1, he.2, hf.1, hf.2⟩
  · intro d prompt selectedModel ps h0 h1 h2 h3
    have he := floorQ_mul100_bounds _ h0 h1
    have hf := floorQ_mul100_bounds _ h2 h3
    exact ⟨he.1, he.2, hf.1, hf.2⟩

/-- Witness for C8 at a concrete draw and playground input. -/
theorem result_scores_in_range_witness :
    0 ≤ (playgroundResult sampleDraw "p" "gpt-4" sampleParams).exactMatch
      ∧ (playgroundResult sampleDraw "p" "gpt-4" sampleParams).exactMatch ≤ 100
      ∧ 0 ≤ (playgroundResult sampleDraw "p" "gpt-4" sampleParams).fuzzyMatch
      ∧ (playgroundResult sampleDraw "p" "gpt-4" sampleParams).fuzzyMatch ≤ 100 :=
  (result_scores_in_range sampleOracle
      (fun _ => by norm_num [sampleOracle, sampleDraw]) [] [] []).2
    sampleDraw "p" "gpt-4" sampleParams
    (by norm_num [sampleDraw]) (by norm_num [sampleDraw])
    (by norm_num [sampleDraw]) (by norm_num [sampleDraw])

/-! ## C1: score-distribution bucket sums -/

theorem bumpAt_length (f : RangeBucket → RangeBucket) (l : List RangeBucket) (i : ℕ) :
    (bumpAt f l i).length = l.length := by
  induction l generalizing i with
  | nil => rfl
  | cons b bs ih =>
    cases i with
    | zero => rfl
    | succ n => simp [bumpAt, ih]

theorem sum_map_bumpAt_add (g : RangeBucket → ℕ) (f : RangeBucket → RangeBucket)
    (hf : ∀ b, g (f b) = g b + 1) (l : List RangeBucket) (i : ℕ) (hi : i < l.length) :
    ((bumpAt f l i).map g).sum = (l.map g).sum + 1 := by
  induction l generalizing i with
  | nil => simp at hi
  | cons b bs ih =>
    cases i with
    | zero => simp [bumpAt, hf b]; omega
    | succ n =>
      have hn : n < bs.length := by simpa using hi
      simp [bumpAt, ih n hn]; omega

theorem sum_map_bumpAt_keep (g : RangeBucket → ℕ) (f : RangeBucket → RangeBucket)
    (hf : ∀ b, g (f b) = g b) (l : List RangeBucket) (i : ℕ) :
    ((bumpAt f l i).map g).sum = (l.map g).sum := by
  induction l generalizing i with
  | nil => rfl
  | cons b bs ih =>
    cases i with
    | zero => simp [bumpAt, hf b]
    | succ n => simp [bumpAt, ih n]

theorem applyResult_sums (acc : List RangeBucket) (r : EvaluationResult)
    (hlen : acc.length = 4)
    (hr : 0 ≤ r.exactMatch ∧ r.exactMatch < 100 ∧ 0 ≤ r.fuzzyMatch ∧ r.fuzzyMatch < 100) :
    (applyResult acc r).length = 4 ∧
    sumExactBuckets (applyResult acc r) = sumExactBuckets acc + 1 ∧
    sumFuzzyBuckets (applyResult acc r) = sumFuzzyBuckets acc + 1 := by
  have he0 : (0 : ℤ) ≤ ⌊r.exactMatch / 25⌋ :=
    Int.le_floor.mpr (by push_cast; exact div_nonneg hr.1 (by norm_num))
  have he4 : ⌊r.exactMatch / 25⌋ < (4 : ℤ) :=
    Int.floor_lt.mpr (by push_cast; rw [div_lt_iff₀ (by norm_num : (0:ℚ) < 25)]; nlinarith [hr.2.1])
  have hf0 : (0 : ℤ) ≤ ⌊r.fuzzyMatch / 25⌋ :=
    Int.le_floor.mpr (by push_cast; exact div_nonneg hr.2.2.1 (by norm_num))
  have hf4 : ⌊r.fuzzyMatch / 25⌋ < (4 : ℤ) :=
    Int.floor_lt.mpr (by push_cast; rw [div_lt_iff₀ (by norm_num : (0:ℚ) < 25)]; nlinarith [hr.2.2.2])
  have hent : (⌊r.exactMatch / 25⌋).toNat < 4 := by omega
  have hfnt : (⌊r.fuzzyMatch / 25⌋).toNat < 4 := by omega
  unfold applyResult
  rw [if_pos ⟨hf0, hf4⟩, if_pos ⟨he0, he4⟩]
  set acc1 := bumpAt (fun b => { b with exactMatch := b.exactMatch + 1 }) acc
    (⌊r.exactMatch / 25⌋).toNat with hacc1
  have hlen1 : acc1.length = 4 := by rw [hacc1, bumpAt_length, hlen]
  refine ⟨by rw [bumpAt_length, hlen1], ?_, ?_⟩
  · unfold sumExactBuckets
    rw [sum_map_bumpAt_keep (fun b => b.exactMatch)
      (fun b => { b with fuzzyMatch := b.fuzzyMatch + 1 }) (fun b => rfl)]
    rw [hacc1, sum_map_bumpAt_add (fun b => b.exactMatch)
      (fun b => { b with exactMatch := b.exactMatch + 1 }) (fun b => rfl) acc _
      (by rw [hlen]; exact hent)]
  · unfold sumFuzzyBuckets
    rw [sum_map_bumpAt_add (fun b => b.fuzzyMatch)
      (fun b => { b with fuzzyMatch := b.fuzzyMatch + 1 }) (fun b => rfl) acc1 _
      (by rw [hlen1]; exact hfnt)]
    rw [hacc1, sum_map_bumpAt_keep (fun b => b.fuzzyMatch)
      (fun b => { b with exactMatch := b.exactMatch + 1 }) (fun b => rfl)]

theorem foldl_applyResult_sums (results : List EvaluationResult)
    (h : ∀ r ∈ results,
        0 ≤ r.exactMatch ∧ r.exactMatch < 100 ∧ 0 ≤ r.fuzzyMatch ∧ r.fuzzyMatch < 100)
    (acc : List RangeBucket) (hlen : acc.length = 4) :
    sumExactBuckets (results.foldl applyResult acc) = sumExactBuckets acc + results.length ∧
    sumFuzzyBuckets (results.foldl applyResult acc) = sumFuzzyBuckets acc + results.length := by
  induction results generalizing acc with
  | nil => simp
  | cons r rs ih =>
    have hr := h r (by simp)
    have hstep := applyResult_sums acc r hlen hr
    have hrest := ih (fun x hx => h x (List.mem_cons_of_mem r hx)) (applyResult acc r) hstep.1
    rw [List.foldl_cons]
    constructor
    · rw [hrest.1, hstep.2.1]
      simp
      omega
    · rw [hrest.2, hstep.2.2]
      simp
      omega

/-- C1 (amended): for every result list all of whose exact- and
fuzzy-match scores lie in `[0, 100)` — as all scores the app generates
do — the four bucket counts sum to the total result count, for both
the exact and the fuzzy distribution.  A score outside `[0, 100)`,
including exactly 100, is counted in no bucket (`Math.floor(100/25) =
4` fails the `index < 4` guard). -/
theorem scoreDistribution_sums (results : List EvaluationResult)
    (h : ∀ r ∈ results,
        0 ≤ r.exactMatch ∧ r.exactMatch < 100 ∧ 0 ≤ r.fuzzyMatch ∧ r.fuzzyMatch < 100) :
    sumExactBuckets (scoreDistribution results) = results.length ∧
    sumFuzzyBuckets (scoreDistribution results) = results.length := by
  have h4 : initialRanges.length = 4 := rfl
  have hbase := foldl_applyResult_sums results h initialRanges h4
  unfold scoreDistribution
  have hse : sumExactBuckets initialRanges = 0 := rfl
  have hsf : sumFuzzyBuckets initialRanges = 0 := rfl
  constructor
  · rw [hbase.1, hse]
    omega
  · rw [hbase.2, hsf]
    omega

/-- Counterexample to C1 as stated: a result with an exact-match score
of exactly 100 is dropped from every bucket, so the exact bucket
counts sum to 0 on a one-element list. -/
theorem scoreDistribution_claim_fails :
    sumExactBuckets (scoreDistribution [rScore100]) = 0 ∧
    [rScore100].length = 1 ∧
    sumExactBuckets (scoreDistribution [rScore100]) ≠ [rScore100].length := by
  have hE : ⌊(rScore100.exactMatch / 25 : ℚ)⌋ = 4 := by
    rw [show rScore100.exactMatch = (100 : ℚ) from rfl]
    rw [Int.floor_eq_iff]
    norm_num
  have hF : ⌊(rScore100.fuzzyMatch / 25 : ℚ)⌋ = 3 := by
    rw [show rScore100.fuzzyMatch = (92 : ℚ) from rfl]
    rw [Int.floor_eq_iff]
    norm_num
  have hval : sumExactBuckets (scoreDistribution [rScore100]) = 0 := by
    show sumExactBuckets (applyResult initialRanges rScore100) = 0
    unfold applyResult
    rw [hE, hF]
    rw [if_pos (by norm_num : (0:ℤ) ≤ 3 ∧ (3:ℤ) < 4),
      if_neg (by norm_num : ¬ ((0:ℤ) ≤ 4 ∧ (4:ℤ) < 4))]
    unfold sumExactBuckets
    rw [sum_map_bumpAt_keep (fun b => b.exactMatch)
      (fun b => { b with fuzzyMatch := b.fuzzyMatch + 1 }) (fun b => rfl)]
    rfl
  refine ⟨hval, rfl, by rw [hval]; simp⟩

/-- Witness for C1 (amended) on a concrete in-range result list. -/
theorem scoreDistribution_sums_witness :
    sumExactBuckets (scoreDistribution [rClean]) = 1 ∧
    sumFuzzyBuckets (scoreDistribution [rClean]) = 1 :=
  scoreDistribution_sums [rClean] (by
    intro r hr
    rw [List.mem_singleton] at hr
    subst hr
    refine ⟨by norm_num [rClean], by norm_num [rClean],
      by norm_num [rClean], by norm_num [rClean]⟩)

/-! ## C4: the evaluation run appends one result per pair -/

theorem sum_map_const_range (n m : ℕ) :
    ((List.range n).map (fun _ => m)).sum = n * m := by
  induction n with
  | zero => simp
  | succ k ih =>
    rw [List.range_succ, List.map_append, List.sum_append, ih]
    simp
    ring

theorem length_range_flatMap (n m : ℕ) (f : ℕ → ℕ → EvaluationResult) :
    ((List.range n).flatMap (fun i => (List.range m).map (f i))).length = n * m := by
  rw [List.length_flatMap]
  have h : List.map (List.length ∘ fun i => (List.range m).map (f i)) (List.range n)
      = (List.range n).map (fun _ => m) := by
    apply List.map_congr_left
    intro a _
    simp
  rw [h, sum_map_const_range]

theorem getElem?_range_flatMap (n m i j : ℕ) (f : ℕ → ℕ → EvaluationResult)
    (hi : i < n) (hj : j < m) :
    ((List.range n).flatMap (fun a => (List.range m).map (f a)))[i * m + j]? = some (f i j) := by
  induction n with
  | zero => omega
  | succ k ih =>
    rw [List.range_succ, List.flatMap_append]
    by_cases hik : i < k
    · have hlt : i * m + j < k * m := by
        have h1 : i * m + j < (i + 1) * m := by
          rw [Nat.add_mul, Nat.one_mul]
          omega
        have h2 : (i + 1) * m ≤ k * m := Nat.mul_le_mul_right m (by omega)
        omega
      rw [List.getElem?_append_left (by rw [length_range_flatMap]; exact hlt)]
      exact ih hik
    · have hik2 : i = k := by omega
      subst hik2
      have hlen : ((List.range i).flatMap (fun a => (List.range m).map (f a))).length
          = i * m := length_range_flatMap i m f
      rw [List.getElem?_append_right (by rw [hlen]; omega)]
      rw [hlen]
      have hidx : i * m + j - i * m = j := by omega
      rw [hidx]
      have hsing : ([i] : List ℕ).flatMap (fun a => (List.range m).map (f a))
          = (List.range m).map (f i) := by
        simp
      rw [hsing, List.getElem?_map, List.getElem?_range hj]
      rfl

/-- C4: a completed evaluation run (non-empty dataset and model
selection) appends exactly `dataset.length × selectedModels.length`
results, leaves every previously present result unchanged in place,
and the new result at offset `i * selectedModels.length + j` is built
from dataset row `i` and selected model `j` — outer loop over rows,
inner loop over models — carrying that row's prompt and
expected_output and that model's identifier. -/
theorem run_appends_per_pair (ω : ℕ → Draw) (dataset : List Row)
    (selectedModels : List String) (results : List EvaluationResult)
    (hd : dataset ≠ []) (hm : selectedModels ≠ []) :
    (handleRunEvaluation ω dataset selectedModels results).length
        = results.length + dataset.length * selectedModels.length ∧
    (handleRunEvaluation ω dataset selectedModels results).take results.length = results ∧
    (∀ i j, i < dataset.length → j < selectedModels.length →
      (handleRunEvaluation ω dataset selectedModels
          results)[results.length + (i * selectedModels.length + j)]?
          = some (mkMockResult (ω (i * selectedModels.length + j))
              (dataset.getD i []) (selectedModels.getD j "")) ∧
      (mkMockResult (ω (i * selectedModels.length + j))
          (dataset.getD i []) (selectedModels.getD j "")).prompt
          = jsGet (Row.get? (dataset.getD i []) "prompt") ∧
      (mkMockResult (ω (i * selectedModels.length + j))
          (dataset.getD i []) (selectedModels.getD j "")).expectedOutput
          = jsGet (Row.get? (dataset.getD i []) "expected_output") ∧
      (mkMockResult (ω (i * selectedModels.length + j))
          (dataset.getD i []) (selectedModels.getD j "")).model
          = selectedModels.getD j "") := by
  have hcond : ¬ (dataset.length = 0 ∨ selectedModels.length = 0) := by
    rw [List.length_eq_zero, List.length_eq_zero]
    tauto
  unfold handleRunEvaluation
  rw [if_neg hcond]
  refine ⟨?_, ?_, ?_⟩
  · rw [List.length_append, length_range_flatMap]
  · exact List.take_left results _
  · intro i j hi hj
    refine ⟨?_, rfl, rfl, rfl⟩
    rw [List.getElem?_append_right (by omega)]
    have hidx : results.length + (i * selectedModels.length + j) - results.length
        = i * selectedModels.length + j := by omega
    rw [hidx]
    exact getElem?_range_flatMap dataset.length selectedModels.length i j _ hi hj

/-- Witness for C4 on a one-row, one-model run. -/
theorem run_appends_per_pair_witness :
    (handleRunEvaluation sampleOracle [sampleRow] ["gpt-4"] []).length
      = ([] : List EvaluationResult).length + [sampleRow].length * ["gpt-4"].length :=
  (run_appends_per_pair sampleOracle [sampleRow] ["gpt-4"] []
    (by simp) (by simp)).1

/-! ## C3: one row per non-empty line, normalized field names -/

theorem parseCSV_length (text : String) :
    (parseCSV text).length
      = ((jsSplit '\n' text).filter (fun l => jsTrim l ≠ "")).length - 1 := by
  unfold parseCSV
  cases h : (jsSplit '\n' text).filter (fun l => jsTrim l ≠ "") with
  | nil => simp
  | cons header rest => simp

theorem processData_ok (data : List JsVal) (out : List JsObj)
    (h : processData data = Except.ok out) : out = data.map normalizeRowJ := by
  unfold processData at h
  split at h
  · simp at h
  · split at h
    · simp at h
    · split at h
      · simp at h
      · cases h
        rfl

theorem digitChar_not_alpha (d : ℕ) :
    digitChar d ≠ 'p' ∧ digitChar d ≠ 'q' ∧ digitChar d ≠ 'e' ∧ digitChar d ≠ 'a' := by
  unfold digitChar
  split <;> exact ⟨by decide, by decide, by decide, by decide⟩

theorem natReprChAux_digit (fuel n : ℕ) (c : Char) (hc : c ∈ natReprChAux fuel n) :
    ∃ d, c = digitChar d := by
  induction fuel generalizing n with
  | zero => simp [natReprChAux] at hc
  | succ fuel ih =>
    unfold natReprChAux at hc
    by_cases h : n < 10
    · rw [if_pos h] at hc
      rw [List.mem_singleton] at hc
      exact ⟨n, hc⟩
    · rw [if_neg h] at hc
      rcases List.mem_append.mp hc with h1 | h1
      · exact ih _ h1
      · rw [List.mem_singleton] at h1
        exact ⟨n % 10, h1⟩

theorem numeral_ne (n : ℕ) (k : String) (c : Char) (hck : c ∈ k.data)
    (hcd : ∀ d, c ≠ digitChar d) : (⟨natReprCh n⟩ : String) ≠ k := by
  intro h
  have hdata : natReprCh n = k.data := congrArg String.data h
  have hmem : c ∈ natReprCh n := by rw [hdata]; exact hck
  obtain ⟨d, hd⟩ := natReprChAux_digit _ _ c hmem
  exact hcd d hd

theorem get?_numeralKeys_none (ps : List (String × JsVal)) (k : String)
    (hps : ∀ p ∈ ps, ∃ n, p.1 = (⟨natReprCh n⟩ : String))
    (hk : ∀ n, (⟨natReprCh n⟩ : String) ≠ k) :
    Row.get? ps k = none := by
  induction ps with
  | nil => rfl
  | cons p ps ih =>
    obtain ⟨k1, v1⟩ := p
    have hrest := ih (fun q hq => hps q (List.mem_cons_of_mem _ hq))
    obtain ⟨n, hn⟩ := hps (k1, v1) (List.mem_cons_self _ _)
    have hne : ¬ k1 = k := by
      simp only at hn
      rw [hn]
      exact hk n
    rw [RowLemmas.get?_cons_of_none _ _ _ _ hrest, if_neg hne]

theorem numeral_ne_prompt : ∀ n, (⟨natReprCh n⟩ : String) ≠ "prompt" :=
  fun n => numeral_ne n "prompt" 'p' (by decide)
    (fun d hd => (digitChar_not_alpha d).1 hd.symm)

theorem numeral_ne_question : ∀ n, (⟨natReprCh n⟩ : String) ≠ "question" :=
  fun n => numeral_ne n "question" 'q' (by decide)
    (fun d hd => (digitChar_not_alpha d).2.1 hd.symm)

theorem numeral_ne_expected_output : ∀ n, (⟨natReprCh n⟩ : String) ≠ "expected_output" :=
  fun n => numeral_ne n "expected_output" 'e' (by decide)
    (fun d hd => (digitChar_not_alpha d).2.2.1 hd.symm)

theorem numeral_ne_expected : ∀ n, (⟨natReprCh n⟩ : String) ≠ "expected" :=
  fun n => numeral_ne n "expected" 'e' (by decide)
    (fun d hd => (digitChar_not_alpha d).2.2.1 hd.symm)

theorem numeral_ne_answer : ∀ n, (⟨natReprCh n⟩ : String) ≠ "answer" :=
  fun n => numeral_ne n "answer" 'a' (by decide)
    (fun d hd => (digitChar_not_alpha d).2.2.2 hd.symm)

theorem ownProps_get?_eq_getField (v : JsVal) (k : String)
    (hk : ∀ n, (⟨natReprCh n⟩ : String) ≠ k) :
    Row.get? (JsVal.ownProps v) k = JsVal.getField v k := by
  cases v with
  | obj fields => rfl
  | null => rfl
  | bool b => rfl
  | num q => rfl
  | str s =>
    unfold JsVal.ownProps JsVal.getField
    apply get?_numeralKeys_none _ _ _ hk
    intro p hp
    rcases List.mem_map.mp hp with ⟨q, hq, rfl⟩
    exact ⟨q.1, rfl⟩
  | arr xs =>
    unfold JsVal.ownProps JsVal.getField
    apply get?_numeralKeys_none _ _ _ hk
    intro p hp
    rcases List.mem_map.mp hp with ⟨q, hq, rfl⟩
    exact ⟨q.1, rfl⟩

theorem normalizeRowJ_get_prompt (row : JsVal) :
    Row.get? (normalizeRowJ row) "prompt"
      = some (match JsVal.getField row "prompt" with
              | some v => v
              | none => jsValOr (JsVal.getField row "question") (JsVal.str "")) := by
  unfold normalizeRowJ
  rw [RowLemmas.get?_foldl_set, ownProps_get?_eq_getField row "prompt" numeral_ne_prompt]
  cases h : JsVal.getField row "prompt" with
  | some v => rfl
  | none =>
    rw [RowLemmas.get?_set_ne _ _ _ _ (by decide), RowLemmas.get?_set_self]
    rfl

theorem normalizeRowJ_get_expected (row : JsVal) :
    Row.get? (normalizeRowJ row) "expected_output"
      = some (match JsVal.getField row "expected_output" with
              | some v => v
              | none => jsValOr (JsVal.getField row "expected")
                  (jsValOr (JsVal.getField row "answer") (JsVal.str ""))) := by
  unfold normalizeRowJ
  rw [RowLemmas.get?_foldl_set,
    ownProps_get?_eq_getField row "expected_output" numeral_ne_expected_output]
  cases h : JsVal.getField row "expected_output" with
  | some v => rfl
  | none =>
    rw [RowLemmas.get?_set_self]
    rfl

theorem normalizeRowJ_prompt_cases (row : JsVal) :
    Row.get? (normalizeRowJ row) "prompt" = JsVal.getField row "prompt"
      ∨ (JsVal.getField row "prompt" = none
          ∧ jsTruthyJ (JsVal.getField row "question") = true
          ∧ Row.get? (normalizeRowJ row) "prompt" = JsVal.getField row "question")
      ∨ (JsVal.getField row "prompt" = none
          ∧ jsTruthyJ (JsVal.getField row "question") = false
          ∧ Row.get? (normalizeRowJ row) "prompt" = some (JsVal.str "")) := by
  rw [normalizeRowJ_get_prompt]
  cases h : JsVal.getField row "prompt" with
  | some v => left; rfl
  | none =>
    cases hq : JsVal.getField row "question" with
    | some q =>
      cases ht : q.truthy with
      | true =>
        right; left
        exact ⟨rfl, by simp [jsTruthyJ, ht], by simp [jsValOr, ht]⟩
      | false =>
        right; right
        exact ⟨rfl, by simp [jsTruthyJ, ht], by simp [jsValOr, ht]⟩
    | none => right; right; exact ⟨rfl, rfl, rfl⟩

theorem normalizeRowJ_expected_cases (row : JsVal) :
    Row.get? (normalizeRowJ row) "expected_output" = JsVal.getField row "expected_output"
      ∨ (JsVal.getField row "expected_output" = none
          ∧ jsTruthyJ (JsVal.getField row "expected") = true
          ∧ Row.get? (normalizeRowJ row) "expected_output" = JsVal.getField row "expected")
      ∨ (JsVal.getField row "expected_output" = none
          ∧ jsTruthyJ (JsVal.getField row "expected") = false
          ∧ jsTruthyJ (JsVal.getField row "answer") = true
          ∧ Row.get? (normalizeRowJ row) "expected_output" = JsVal.getField row "answer")
      ∨ (JsVal.getField row "expected_output" = none
          ∧ jsTruthyJ (JsVal.getField row "expected") = false
          ∧ jsTruthyJ (JsVal.getField row "answer") = false
          ∧ Row.get? (normalizeRowJ row) "expected_output" = some (JsVal.str "")) := by
  rw [normalizeRowJ_get_expected]
  cases h : JsVal.getField row "expected_output" with
  | some v => left; rfl
  | none =>
    cases he : JsVal.getField row "expected" with
    | some e =>
      cases ht : e.truthy with
      | true =>
        right; left
        exact ⟨rfl, by simp [jsTruthyJ, ht], by simp [jsValOr, ht]⟩
      | false =>
        cases ha : JsVal.getField row "answer" with
        | some a =>
          cases ha2 : a.truthy with
          | true =>
            right; right; left
            exact ⟨rfl, by simp [jsTruthyJ, ht], by simp [jsTruthyJ, ha2],
              by simp [jsValOr, ht, ha2]⟩
          | false =>
            right; right; right
            exact ⟨rfl, by simp [jsTruthyJ, ht], by simp [jsTruthyJ, ha2],
              by simp [jsValOr, ht, ha2]⟩
        | none =>
          right; right; right
          exact ⟨rfl, by simp [jsTruthyJ, ht], rfl, by simp [jsValOr, ht]⟩
    | none =>
      cases ha : JsVal.getField row "answer" with
      | some a =>
        cases ha2 : a.truthy with
        | true =>
          right; right; left
          exact ⟨rfl, rfl, by simp [jsTruthyJ, ha2], by simp [jsValOr, ha2]⟩
        | false =>
          right; right; right
          exact ⟨rfl, rfl, by simp [jsTruthyJ, ha2], by simp [jsValOr, ha2]⟩
      | none => right; right; right; exact ⟨rfl, rfl, rfl, rfl⟩

theorem processFile_rows (name text : String) (out : List JsObj)
    (h : processFile name text = Except.ok out) :
    ∃ data : List JsVal,
      ((jsEndsWith name ".csv" = true ∧ data = (parseCSV text).map rowToVal)
        ∨ (jsEndsWith name ".csv" = false ∧ jsEndsWith name ".jsonl" = true
            ∧ parseJSONL text = some data))
      ∧ out = data.map normalizeRowJ := by
  unfold processFile at h
  by_cases hcsv : jsEndsWith name ".csv" = true
  · rw [if_pos hcsv] at h
    exact ⟨(parseCSV text).map rowToVal, Or.inl ⟨hcsv, rfl⟩, processData_ok _ _ h⟩
  · have hcsvf : jsEndsWith name ".csv" = false := by
      cases hx : jsEndsWith name ".csv"
      · rfl
      · exact absurd hx hcsv
    rw [if_neg hcsv] at h
    by_cases hjsonl : jsEndsWith name ".jsonl" = true
    · rw [if_pos hjsonl] at h
      cases hp : parseJSONL text with
      | none => rw [hp] at h; exact absurd h (by simp)
      | some data =>
        rw [hp] at h
        exact ⟨data, Or.inr ⟨hcsvf, hjsonl, rfl⟩, processData_ok _ _ h⟩
    · rw [if_neg hjsonl] at h
      exact absurd h (by simp)

/-- C3 (amended): a successful upload hands `onDatasetUpload` exactly
the parsed rows, normalized in order — one per non-empty line (for
CSV, per non-empty line after the header line) — and for every index
`i`, the handed row's `prompt` field equals parsed row `i`'s own
`prompt` value; or, when row `i` has no `prompt` property, its
`question` value when that is JS-truthy, and the empty string when it
is not; likewise `expected_output` equals row `i`'s `expected_output`
value, else its truthy `expected` value, else its truthy `answer`
value, else the empty string. -/
theorem dataset_rows_normalized (name text : String) (out : List JsObj)
    (h : processFile name text = Except.ok out) :
    ∃ data : List JsVal,
      ((jsEndsWith name ".csv" = true ∧ data = (parseCSV text).map rowToVal)
        ∨ (jsEndsWith name ".csv" = false ∧ jsEndsWith name ".jsonl" = true
            ∧ parseJSONL text = some data))
      ∧ out = data.map normalizeRowJ
      ∧ (jsEndsWith name ".csv" = true →
          out.length = ((jsSplit '\n' text).filter (fun l => jsTrim l ≠ "")).length - 1)
      ∧ (jsEndsWith name ".csv" = false → jsEndsWith name ".jsonl" = true →
          out.length = ((jsSplit '\n' text).filter (fun l => jsTrim l ≠ "")).length)
      ∧ (∀ i, i < out.length →
          (Row.get? (out.getD i []) "prompt"
              = JsVal.getField (data.getD i JsVal.null) "prompt"
            ∨ (JsVal.getField (data.getD i JsVal.null) "prompt" = none
                ∧ jsTruthyJ (JsVal.getField (data.getD i JsVal.null) "question") = true
                ∧ Row.get? (out.getD i []) "prompt"
                    = JsVal.getField (data.getD i JsVal.null) "question")
            ∨ (JsVal.getField (data.getD i JsVal.null) "prompt" = none
                ∧ jsTruthyJ (JsVal.getField (data.getD i JsVal.null) "question") = false
                ∧ Row.get? (out.getD i []) "prompt" = some (JsVal.str "")))
          ∧ (Row.get? (out.getD i []) "expected_output"
              = JsVal.getField (data.getD i JsVal.null) "expected_output"
            ∨ (JsVal.getField (data.getD i JsVal.null) "expected_output" = none
                ∧ jsTruthyJ (JsVal.getField (data.getD i JsVal.null) "expected") = true
                ∧ Row.get? (out.getD i []) "expected_output"
                    = JsVal.getField (data.getD i JsVal.null) "expected")
            ∨ (JsVal.getField (data.getD i JsVal.null) "expected_output" = none
                ∧ jsTruthyJ (JsVal.getField (data.getD i JsVal.null) "expected") = false
                ∧ jsTruthyJ (JsVal.getField (data.getD i JsVal.null) "answer") = true
                ∧ Row.get? (out.getD i []) "expected_output"
                    = JsVal.getField (data.getD i JsVal.null) "answer")
            ∨ (JsVal.getField (data.getD i JsVal.null) "expected_output" = none
                ∧ jsTruthyJ (JsVal.getField (data.getD i JsVal.null) "expected") = false
                ∧ jsTruthyJ (JsVal.getField (data.getD i JsVal.null) "answer") = false
                ∧ Row.get? (out.getD i []) "expected_output" = some (JsVal.str "")))) := by
  obtain ⟨data, hsel, hout⟩ := processFile_rows name text out h
  refine ⟨data, hsel, hout, ?_, ?_, ?_⟩
  · intro hc
    rcases hsel with ⟨_, rfl⟩ | ⟨hf, _, _⟩
    · rw [hout, List.length_map, List.length_map, parseCSV_length]
    · rw [hc] at hf
      cases hf
  · intro hc hj
    rcases hsel with ⟨ht, _⟩ | ⟨_, _, hp⟩
    · rw [hc] at ht
      cases ht
    · rw [hout, List.length_map]
      exact (AuxLemmas.mapOption_length jsonParseLine _ _ hp).symm ▸ rfl
  · intro i hi
    have hi2 : i < data.length := by
      rw [hout, List.length_map] at hi
      exact hi
    have hgd : out.getD i [] = normalizeRowJ (data.getD i JsVal.null) := by
      rw [hout, List.getD_eq_getElem?_getD, List.getD_eq_getElem?_getD,
        List.getElem?_map, List.getElem?_eq_getElem hi2]
      rfl
    rw [hgd]
    exact ⟨normalizeRowJ_prompt_cases _, normalizeRowJ_expected_cases _⟩

/-- Counterexample to C3 as stated: uploading the JSONL text whose
second line is the object with no fields hands `onDatasetUpload` a row
whose `prompt` field is the empty string while the parsed row has
neither a `prompt` nor a `question` value. -/
theorem dataset_rows_claim_fails :
    processFile "d.jsonl" "\x7b\"prompt\":\"p\",\"expected\":\"e\"\x7d\n\x7b\x7d"
        = Except.ok
          [[("prompt", JsVal.str "p"), ("expected_output", JsVal.str "e"),
            ("expected", JsVal.str "e")],
           [("prompt", JsVal.str ""), ("expected_output", JsVal.str "")]] ∧
    JsVal.getField (JsVal.obj []) "prompt" = none ∧
    JsVal.getField (JsVal.obj []) "question" = none ∧
    ¬ (Row.get? [("prompt", JsVal.str ""), ("expected_output", JsVal.str "")] "prompt"
          = JsVal.getField (JsVal.obj []) "prompt"
        ∨ Row.get? [("prompt", JsVal.str ""), ("expected_output", JsVal.str "")] "prompt"
          = JsVal.getField (JsVal.obj []) "question") := by
  refine ⟨rfl, rfl, rfl, ?_⟩
  rintro (h | h) <;>
    exact Option.noConfusion (show some (JsVal.str "") = (none : Option JsVal) from h)

/-- Witness for C3 (amended): a two-line CSV upload hands exactly one
row. -/
theorem dataset_rows_normalized_witness :
    ([[("prompt", JsVal.str "p"), ("expected_output", JsVal.str "e")]] : List JsObj).length
      = ((jsSplit '\n' "prompt,expected_output\np,e").filter
          (fun l => jsTrim l ≠ "")).length - 1 := by
  obtain ⟨data, hsel, hout, hcsv, hjsonl, hrows⟩ :=
    dataset_rows_normalized "d.csv" "prompt,expected_output\np,e"
      [[("prompt", JsVal.str "p"), ("expected_output", JsVal.str "e")]] rfl
  exact hcsv rfl

/-! ## C5: when processFile surfaces an error -/

/-- The full `JSON.parse` model accepts what the browser accepts:
later rows with numeric-only fields, extra numeric fields, `\uXXXX`
escapes and nested values all upload successfully. -/
theorem processFile_accepts_general_json :
    (∃ out, processFile "d.jsonl"
        "\x7b\"prompt\":\"p\",\"expected\":\"e\"\x7d\n\x7b\"n\":1\x7d" = Except.ok out) ∧
    (∃ out, processFile "d.jsonl"
        "\x7b\"prompt\":\"p\",\"expected\":\"e\",\"score\":5\x7d" = Except.ok out) ∧
    (∃ out, processFile "d.jsonl"
        "\x7b\"prompt\":\"caf\\u00e9\",\"expected\":\"e\",\"meta\":\x7b\"k\":[1,true,null]\x7d\x7d"
        = Except.ok out) :=
  ⟨⟨_, rfl⟩, ⟨_, rfl⟩, ⟨_, rfl⟩⟩

/-! ## C2: CSV export and the uploader-side parseCSV -/

theorem digitChar_good (d : ℕ) :
    digitChar d ≠ '\n' ∧ digitChar d ≠ ',' ∧ digitChar d ≠ '"' := by
  unfold digitChar
  split <;> exact ⟨by decide, by decide, by decide⟩

theorem natReprChAux_good (fuel n : ℕ) (c : Char) (hc : c ∈ natReprChAux fuel n) :
    c ≠ '\n' ∧ c ≠ ',' ∧ c ≠ '"' := by
  induction fuel generalizing n with
  | zero => simp [natReprChAux] at hc
  | succ fuel ih =>
    unfold natReprChAux at hc
    by_cases h : n < 10
    · rw [if_pos h] at hc
      rw [List.mem_singleton] at hc
      subst hc
      exact digitChar_good n
    · rw [if_neg h] at hc
      rcases List.mem_append.mp hc with h1 | h1
      · exact ih _ h1
      · rw [List.mem_singleton] at h1
        subst h1
        exact digitChar_good (n % 10)

theorem intReprCh_good (i : ℤ) (c : Char) (hc : c ∈ intReprCh i) :
    c ≠ '\n' ∧ c ≠ ',' ∧ c ≠ '"' := by
  unfold intReprCh at hc
  by_cases h : i < 0
  · rw [if_pos h] at hc
    rcases List.mem_cons.mp hc with rfl | h1
    · exact ⟨by decide, by decide, by decide⟩
    · exact natReprChAux_good _ _ _ h1
  · rw [if_neg h] at hc
    exact natReprChAux_good _ _ _ hc

theorem numRepr_good (q : ℚ) (c : Char) (hc : c ∈ (numRepr q).data) :
    c ≠ '\n' ∧ c ≠ ',' ∧ c ≠ '"' := by
  unfold numRepr at hc
  by_cases h : q.den = 1
  · rw [if_pos h] at hc
    exact intReprCh_good _ _ hc
  · rw [if_neg h] at hc
    simp only at hc
    rcases List.mem_append.mp hc with h1 | h1
    · exact intReprCh_good _ _ h1
    · rcases List.mem_cons.mp h1 with rfl | h2
      · exact ⟨by decide, by decide, by decide⟩
      · exact natReprChAux_good _ _ _ h2

theorem mem_escQuotes (l : List Char) (c : Char) (hc : c ∈ escQuotes l) :
    c ∈ l ∨ c = '"' := by
  unfold escQuotes at hc
  rcases List.mem_flatMap.mp hc with ⟨a, ha, hmem⟩
  by_cases hq : a = '"'
  · rw [if_pos hq] at hmem
    rcases List.mem_cons.mp hmem with rfl | hmem2
    · exact Or.inr rfl
    · rw [List.mem_singleton] at hmem2
      exact Or.inr hmem2
  · rw [if_neg hq] at hmem
    rw [List.mem_singleton] at hmem
    exact Or.inl (hmem ▸ ha)

theorem escQuotes_of_no_quote (l : List Char) (h : '"' ∉ l) :
    escQuotes l = l := by
  induction l with
  | nil => rfl
  | cons a rest ih =>
    simp only [List.mem_cons, not_or] at h
    unfold escQuotes
    rw [List.flatMap_cons, if_neg (fun he => h.1 he.symm)]
    have := ih h.2
    unfold escQuotes at this
    rw [this]
    rfl

theorem stripQuotes_of_no_quote (l : List Char) (h : '"' ∉ l) :
    stripQuotes l = l := by
  unfold stripQuotes
  apply List.filter_eq_self.mpr
  intro a ha
  simp only [ne_eq, decide_eq_true_eq]
  intro heq
  exact h (heq ▸ ha)

theorem dropWhile_cons_false (p : Char → Bool) (x : Char) (xs : List Char)
    (h : p x = false) : List.dropWhile p (x :: xs) = x :: xs := by
  rw [List.dropWhile_cons, h]
  simp

theorem trimChars_quoted (m : List Char) :
    trimChars ('"' :: m ++ ['"']) = '"' :: m ++ ['"'] := by
  unfold trimChars
  rw [show ('"' :: m ++ ['"'] : List Char) = '"' :: (m ++ ['"']) from rfl]
  rw [dropWhile_cons_false _ _ _ (by decide)]
  rw [show ('"' :: (m ++ ['"'])).reverse = '"' :: (('"' :: m).reverse) from by simp]
  rw [dropWhile_cons_false _ _ _ (by decide)]
  simp

theorem cellRecover (s : String) (hclean : cleanText s) :
    stripQuotes (trimChars (escField s).data) = s.data := by
  have hq : '"' ∉ s.data := fun hmem => (hclean '"' hmem).2.1 rfl
  have hdata : (escField s).data = '"' :: escQuotes s.data ++ ['"'] := rfl
  rw [hdata, trimChars_quoted, escQuotes_of_no_quote s.data hq]
  rw [show ('"' :: s.data ++ ['"'] : List Char) = '"' :: (s.data ++ ['"']) from rfl]
  unfold stripQuotes
  rw [List.filter_cons_of_neg (by decide), List.filter_append]
  rw [show List.filter (fun ch => decide (ch ≠ '"')) ['"'] = [] from rfl]
  rw [List.append_nil]
  exact stripQuotes_of_no_quote s.data hq

theorem mem_joinSep_head (c : Char) (x : Char) (g : List Char)
    (gs : List (List Char)) (hx : x ∈ g) : x ∈ joinSep c (g :: gs) := by
  cases gs with
  | nil => exact hx
  | cons g2 gs2 => exact List.mem_append.mpr (Or.inl hx)

theorem escField_clean (s : String) (hs : cleanText s) (c : Char)
    (hc : c ∈ (escField s).data) : c ≠ ',' ∧ c ≠ '\n' := by
  have hdata : (escField s).data = '"' :: escQuotes s.data ++ ['"'] := rfl
  rw [hdata] at hc
  rcases List.mem_cons.mp hc with rfl | h1
  · exact ⟨by decide, by decide⟩
  · rcases List.mem_append.mp h1 with h2 | h2
    · rcases mem_escQuotes _ _ h2 with h3 | rfl
      · exact ⟨(hs c h3).1, (hs c h3).2.2⟩
      · exact ⟨by decide, by decide⟩
    · rw [List.mem_singleton] at h2
      subst h2
      exact ⟨by decide, by decide⟩

theorem toxCell_clean (b : Bool) (c : Char)
    (hc : c ∈ (if b then "Yes" else "No" : String).data) :
    c ≠ ',' ∧ c ≠ '\n' := by
  cases b with
  | true =>
    rw [if_pos rfl] at hc
    have hc2 : c ∈ ['Y', 'e', 's'] := hc
    fin_cases hc2 <;> exact ⟨by decide, by decide⟩
  | false =>
    rw [if_neg (by decide)] at hc
    have hc2 : c ∈ ['N', 'o'] := hc
    fin_cases hc2 <;> exact ⟨by decide, by decide⟩

theorem csvRowLine_no_newline (r : EvaluationResult)
    (hp : cleanText r.prompt) (hm : cleanText r.modelResponse)
    (he : cleanText r.expectedOutput) (hmodel : '\n' ∉ r.model.data) :
    '\n' ∉ (csvRowLine r).data := by
  intro hmem
  have hdata : (csvRowLine r).data = joinSep ','
      [(escField r.prompt).data, (escField r.modelResponse).data,
       (escField r.expectedOutput).data, (numRepr r.exactMatch).data,
       (numRepr r.fuzzyMatch).data, (if r.toxicity then "Yes" else "No" : String).data,
       (if r.model = "" then "Unknown" else r.model).data] := rfl
  rw [hdata] at hmem
  rcases AuxLemmas.mem_joinSep ',' _ '\n' hmem with hcomma | ⟨l, hl, hnl⟩
  · cases hcomma
  · fin_cases hl
    · exact (escField_clean r.prompt hp '\n' hnl).2 rfl
    · exact (escField_clean r.modelResponse hm '\n' hnl).2 rfl
    · exact (escField_clean r.expectedOutput he '\n' hnl).2 rfl
    · exact (numRepr_good r.exactMatch '\n' hnl).1 rfl
    · exact (numRepr_good r.fuzzyMatch '\n' hnl).1 rfl
    · exact (toxCell_clean r.toxicity '\n' hnl).2 rfl
    · by_cases hmm : r.model = ""
      · rw [if_pos hmm] at hnl
        exact absurd hnl (by decide)
      · rw [if_neg hmm] at hnl
        exact hmodel hnl

theorem csvRowLine_has_quote (r : EvaluationResult) :
    '"' ∈ (csvRowLine r).data := by
  have hdata : (csvRowLine r).data = joinSep ','
      ((escField r.prompt).data ::
       [(escField r.modelResponse).data,
        (escField r.expectedOutput).data, (numRepr r.exactMatch).data,
        (numRepr r.fuzzyMatch).data, (if r.toxicity then "Yes" else "No" : String).data,
        (if r.model = "" then "Unknown" else r.model).data]) := rfl
  rw [hdata]
  exact mem_joinSep_head ',' '"' _ _ (by rw [show (escField r.prompt).data
    = '"' :: escQuotes r.prompt.data ++ ['"'] from rfl]; exact List.mem_cons_self _ _)

theorem strMk_ne_empty (l : List Char) (h : l ≠ []) : (⟨l⟩ : String) ≠ "" :=
  fun he => h (congrArg String.data he)

theorem jsTrim_rowLine_ne (r : EvaluationResult) :
    jsTrim (csvRowLine r) ≠ "" := by
  unfold jsTrim
  exact strMk_ne_empty _
    (AuxLemmas.trimChars_ne_nil _ '"' (csvRowLine_has_quote r) (by decide))

theorem mkObj_csvHeaders_expand (values : List String) :
    mkObj csvHeaders values =
      Row.set (Row.set (Row.set (Row.set (Row.set (Row.set (Row.set []
        "Prompt" (values.getD 0 ""))
        "Model Response" (values.getD 1 ""))
        "Expected Output" (values.getD 2 ""))
        "Exact Match (%)" (values.getD 3 ""))
        "Fuzzy Match (%)" (values.getD 4 ""))
        "Toxicity" (values.getD 5 ""))
        "Model" (values.getD 6 "") := rfl

theorem mkObj_csvHeaders_get (values : List String) :
    Row.get? (mkObj csvHeaders values) "Prompt" = some (values.getD 0 "")
    ∧ Row.get? (mkObj csvHeaders values) "Model Response" = some (values.getD 1 "")
    ∧ Row.get? (mkObj csvHeaders values) "Expected Output" = some (values.getD 2 "") := by
  rw [mkObj_csvHeaders_expand]
  refine ⟨?_, ?_, ?_⟩
  · rw [RowLemmas.get?_set_ne _ _ _ _ (by decide), RowLemmas.get?_set_ne _ _ _ _ (by decide),
      RowLemmas.get?_set_ne _ _ _ _ (by decide), RowLemmas.get?_set_ne _ _ _ _ (by decide),
      RowLemmas.get?_set_ne _ _ _ _ (by decide), RowLemmas.get?_set_ne _ _ _ _ (by decide),
      RowLemmas.get?_set_self]
  · rw [RowLemmas.get?_set_ne _ _ _ _ (by decide), RowLemmas.get?_set_ne _ _ _ _ (by decide),
      RowLemmas.get?_set_ne _ _ _ _ (by decide), RowLemmas.get?_set_ne _ _ _ _ (by decide),
      RowLemmas.get?_set_ne _ _ _ _ (by decide), RowLemmas.get?_set_self]
  · rw [RowLemmas.get?_set_ne _ _ _ _ (by decide), RowLemmas.get?_set_ne _ _ _ _ (by decide),
      RowLemmas.get?_set_ne _ _ _ _ (by decide), RowLemmas.get?_set_ne _ _ _ _ (by decide),
      RowLemmas.get?_set_self]

theorem csvRow_values (r : EvaluationResult)
    (hp : cleanText r.prompt) (hm : cleanText r.modelResponse)
    (he : cleanText r.expectedOutput) :
    ∃ tail, (jsSplit ',' (csvRowLine r)).map
        (fun v => (⟨stripQuotes (trimChars v.data)⟩ : String))
      = r.prompt :: r.modelResponse :: r.expectedOutput :: tail := by
  have hdata : (csvRowLine r).data = joinSep ','
      ([(escField r.prompt).data, (escField r.modelResponse).data,
        (escField r.expectedOutput).data, (numRepr r.exactMatch).data,
        (numRepr r.fuzzyMatch).data, (if r.toxicity then "Yes" else "No" : String).data]
       ++ [(if r.model = "" then "Unknown" else r.model).data]) := rfl
  have hsplit : splitCh ',' (csvRowLine r).data
      = [(escField r.prompt).data, (escField r.modelResponse).data,
         (escField r.expectedOutput).data, (numRepr r.exactMatch).data,
         (numRepr r.fuzzyMatch).data, (if r.toxicity then "Yes" else "No" : String).data]
        ++ splitCh ',' (if r.model = "" then "Unknown" else r.model).data := by
    rw [hdata]
    apply AuxLemmas.splitCh_joinSep_append
    intro l hl
    fin_cases hl
    · exact fun hmem => (escField_clean r.prompt hp ',' hmem).1 rfl
    · exact fun hmem => (escField_clean r.modelResponse hm ',' hmem).1 rfl
    · exact fun hmem => (escField_clean r.expectedOutput he ',' hmem).1 rfl
    · exact fun hmem => (numRepr_good r.exactMatch ',' hmem).2.1 rfl
    · exact fun hmem => (numRepr_good r.fuzzyMatch ',' hmem).2.1 rfl
    · exact fun hmem => (toxCell_clean r.toxicity ',' hmem).1 rfl
  have hcell : ∀ (s : String), cleanText s →
      ((fun v => (⟨stripQuotes (trimChars v.data)⟩ : String)) ∘
        fun cs => (⟨cs⟩ : String)) (escField s).data = s := by
    intro s hs
    show (⟨stripQuotes (trimChars (escField s).data)⟩ : String) = s
    rw [cellRecover s hs]
  refine ⟨((fun v => (⟨stripQuotes (trimChars v.data)⟩ : String)) ∘
        fun cs => (⟨cs⟩ : String)) (numRepr r.exactMatch).data
      :: ((fun v => (⟨stripQuotes (trimChars v.data)⟩ : String)) ∘
        fun cs => (⟨cs⟩ : String)) (numRepr r.fuzzyMatch).data
      :: ((fun v => (⟨stripQuotes (trimChars v.data)⟩ : String)) ∘
        fun cs => (⟨cs⟩ : String)) (if r.toxicity then "Yes" else "No" : String).data
      :: (splitCh ',' (if r.model = "" then "Unknown" else r.model).data).map
        ((fun v => (⟨stripQuotes (trimChars v.data)⟩ : String)) ∘
          fun cs => (⟨cs⟩ : String)), ?_⟩
  unfold jsSplit
  rw [hsplit, List.map_map, List.map_append]
  simp only [List.map_cons, List.map_nil, List.cons_append, List.nil_append]
  rw [hcell r.prompt hp, hcell r.modelResponse hm, hcell r.expectedOutput he]

theorem parseCSV_csvContent (data : List EvaluationResult)
    (h : ∀ r ∈ data, cleanText r.prompt ∧ cleanText r.modelResponse
        ∧ cleanText r.expectedOutput ∧ '\n' ∉ r.model.data) :
    parseCSV (csvContent data)
      = data.map (fun r => mkObj csvHeaders
          ((jsSplit ',' (csvRowLine r)).map
            (fun v => (⟨stripQuotes (trimChars v.data)⟩ : String)))) := by
  have hdata : (csvContent data).data
      = joinSep '\n' ((joinSep ',' (csvHeaders.map String.data))
          :: data.map (fun r => (csvRowLine r).data)) := rfl
  have hlines : splitCh '\n' (csvContent data).data
      = (joinSep ',' (csvHeaders.map String.data))
          :: data.map (fun r => (csvRowLine r).data) := by
    rw [hdata]
    apply AuxLemmas.splitCh_joinSep
    · intro l hl
      rcases List.mem_cons.mp hl with rfl | hl2
      · decide
      · rcases List.mem_map.mp hl2 with ⟨r, hr, rfl⟩
        have hrh := h r hr
        exact csvRowLine_no_newline r hrh.1 hrh.2.1 hrh.2.2.1 hrh.2.2.2
    · simp
  have hsplit : jsSplit '\n' (csvContent data)
      = (⟨joinSep ',' (csvHeaders.map String.data)⟩ : String)
          :: data.map (fun r => csvRowLine r) := by
    unfold jsSplit
    rw [hlines]
    simp only [List.map_cons, List.map_map]
    rfl
  have hscrut : (jsSplit '\n' (csvContent data)).filter (fun l => jsTrim l ≠ "")
      = (⟨joinSep ',' (csvHeaders.map String.data)⟩ : String)
          :: data.map (fun r => csvRowLine r) := by
    rw [hsplit]
    apply List.filter_eq_self.mpr
    intro a ha
    rcases List.mem_cons.mp ha with rfl | ha2
    · decide
    · rcases List.mem_map.mp ha2 with ⟨r, _, rfl⟩
      exact decide_eq_true (jsTrim_rowLine_ne r)
  unfold parseCSV
  rw [hscrut]
  have hheaders : ((jsSplit ',' (⟨joinSep ',' (csvHeaders.map String.data)⟩ : String)).map
      (fun h => (⟨stripQuotes (trimChars h.data)⟩ : String))) = csvHeaders := by decide
  simp only [hheaders, List.map_map]
  rfl

/-- C2 (amended): the CSV export round-trips through the uploader-side
`parseCSV` for every result list whose prompt, model-response and
expected-output fields contain no comma, double quote or newline (and
whose model identifier contains no newline): the parsed rows recover
each row's three text fields under the exported headers.  Fields
containing commas or quotes are *not* recovered — `parseCSV` splits
blindly on every comma and strips every quote (see the
counterexample). -/
theorem export_roundtrip (data : List EvaluationResult) (csvText : String)
    (hexp : exportToCSV data = some csvText)
    (h : ∀ r ∈ data, cleanText r.prompt ∧ cleanText r.modelResponse
        ∧ cleanText r.expectedOutput ∧ '\n' ∉ r.model.data) :
    (parseCSV csvText).map (fun row =>
        (jsGet (Row.get? row "Prompt"), jsGet (Row.get? row "Model Response"),
         jsGet (Row.get? row "Expected Output")))
      = data.map (fun r => (r.prompt, r.modelResponse, r.expectedOutput)) := by
  have hct : csvText = csvContent data := by
    unfold exportToCSV at hexp
    split at hexp
    · cases hexp
    · cases hexp
      rfl
  subst hct
  rw [parseCSV_csvContent data h, List.map_map]
  apply List.map_congr_left
  intro r hr
  obtain ⟨tail, hvals⟩ := csvRow_values r (h r hr).1 (h r hr).2.1 (h r hr).2.2.1
  have hget := mkObj_csvHeaders_get ((jsSplit ',' (csvRowLine r)).map
    (fun v => (⟨stripQuotes (trimChars v.data)⟩ : String)))
  simp only [Function.comp]
  rw [hget.1, hget.2.1, hget.2.2, hvals]
  rfl

/-- Counterexample to C2 as stated: a prompt containing a comma is cut
at the comma by `parseCSV`, so the round trip does not recover it. -/
theorem export_roundtrip_claim_fails :
    exportToCSV [rComma] = some (csvContent [rComma]) ∧
    (parseCSV (csvContent [rComma])).map (fun row => jsGet (Row.get? row "Prompt"))
      = ["a"] ∧
    rComma.prompt = "a,b" ∧
    ("a" : String) ≠ "a,b" :=
  ⟨rfl, rfl, rfl, by decide⟩

/-- Witness for C2 (amended) on a one-row list with clean fields. -/
theorem export_roundtrip_witness :
    (parseCSV (csvContent [rClean])).map (fun row =>
        (jsGet (Row.get? row "Prompt"), jsGet (Row.get? row "Model Response"),
         jsGet (Row.get? row "Expected Output")))
      = [rClean].map (fun r => (r.prompt, r.modelResponse, r.expectedOutput)) :=
  export_roundtrip [rClean] (csvContent [rClean]) rfl (by
    intro r hr
    rw [List.mem_singleton] at hr
    subst hr
    exact ⟨by decide, by decide, by decide, by decide⟩)
